import Mathlib

/-!
Shallow embedding of the repostruc analysis-and-rendering pipeline
(src/src/utils.js, src/src/config-manager.js, src/src/analyzer.js,
src/src/formatters/text-formatter.js, json-formatter.js,
markdown-formatter.js, src/src/constants.js; the monolithic src/index.js
duplicates these).

Modelling conventions, used throughout:
 - JavaScript `Map` objects (structureMap, fileInfoMap) are insertion-ordered
   association lists; `mapGet`/`mapSet`/`mapHas` mirror `Map.get`/`set`/`has`
   (set replaces in place, keeping the key's position, else appends).
 - `Array.prototype.sort(cmp)` (ES2019: a stable sort) is modelled by the
   stable insertion sort `stableSort le` with `le x y := cmp x y ≤ 0`;
   for a consistent comparator every stable sort produces this output.
 - `String.prototype.localeCompare` is modelled by code-point comparison
   (`compare`), which agrees with it on the ASCII names this tool sorts.
 - chalk color functions are modelled as the identity: the tool strips ANSI
   codes when writing files and the claims are about information content.
 - `new Date().toISOString()` is passed in as a `now : String` parameter;
   a `Date` value is represented by its ISO-8601 string.
 - filesystem and git access are inputs: each walked path carries its stat
   and readdir outcomes (`WalkedEntry`), the git status map is a parameter.
 - each renderer's recursion over the nested structure map is a pair of
   mutually recursive functions, the node function (sorts the siblings, as
   in source) and the `forEach` loop function, terminating by `sizeOf`
   (sorting permutes the siblings, so preserves `sizeOf`).
-/

/-! ## JavaScript map, sort and string primitives -/

/-- `Map.prototype.get`: first (unique) binding of the key, as JS insertion
order keeps keys unique. -/
def mapGet (m : List (String × α)) (k : String) : Option α :=
  match m with
  | [] => none
  | (k2, v) :: rest => if k2 = k then some v else mapGet rest k

/-- `Map.prototype.set`: replace in place, else append. -/
def mapSet (m : List (String × α)) (k : String) (v : α) : List (String × α) :=
  match m with
  | [] => [(k, v)]
  | (k2, v2) :: rest => if k2 = k then (k2, v) :: rest else (k2, v2) :: mapSet rest k v

/-- `Map.prototype.has`. -/
def mapHas (m : List (String × α)) (k : String) : Bool :=
  (mapGet m k).isSome

/-- One step of the stable insertion sort: insert `a` after every existing
element `b` with `le b a` (so elements that compare equal keep their
original relative order, as ES2019 `Array.prototype.sort` guarantees). -/
def insertSorted (le : α → α → Bool) (a : α) : List α → List α
  | [] => [a]
  | b :: l => if le b a then b :: insertSorted le a l else a :: b :: l

/-- Stable sort modelling `Array.prototype.sort(cmp)` with
`le x y := cmp x y ≤ 0`. -/
def stableSort (le : α → α → Bool) (l : List α) : List α :=
  l.foldl (fun acc x => insertSorted le x acc) []

/-- Code-point comparison of character lists (lexicographic). -/
def cmpChars : List Char → List Char → Ordering
  | [], [] => Ordering.eq
  | [], _ :: _ => Ordering.lt
  | _ :: _, [] => Ordering.gt
  | a :: as, b :: bs =>
    if a < b then Ordering.lt
    else if b < a then Ordering.gt
    else cmpChars as bs

/-- Code-point comparison of strings. -/
def cmpStr (a b : String) : Ordering :=
  cmpChars a.data b.data

/-- `a.localeCompare(b)` as the `-1 / 0 / 1` integer the comparators use,
modelled by code-point comparison. -/
def localeCompareInt (a b : String) : Int :=
  match cmpStr a b with
  | Ordering.lt => -1
  | Ordering.eq => 0
  | Ordering.gt => 1

/-- `parentPath ? path.join(parentPath, name) : name` — the only way the
renderers build child paths. -/
def joinPath (parentPath name : String) : String :=
  if parentPath = "" then name else parentPath ++ "/" ++ name

/-- `String.prototype.toLowerCase`, character-wise (ASCII range; the
extension tables are ASCII). -/
def toLowerCase (s : String) : String :=
  String.mk (s.data.map Char.toLower)

/-- Accumulating splitter behind `splitPath` (JS `String.prototype.split`
semantics: `"".split('/') = [""]`, separators delimit possibly-empty
segments). -/
def splitPathAux : List Char → List Char → List String
  | acc, [] => [String.mk acc.reverse]
  | acc, c :: rest =>
    if c = '/' then String.mk acc.reverse :: splitPathAux [] rest
    else splitPathAux (c :: acc) rest

/-- Segments of a relative path: `file.split(path.sep)` /
`currentPath.split('/')` with `path.sep = "/"`. -/
def splitPath (p : String) : List String :=
  splitPathAux [] p.data

/-- The basename of a path: the part after the last `/`
(`path.basename` for the already-resolved directory strings used here). -/
def basenameOf (p : String) : String :=
  (splitPath p).getLastD ""

/-- `path.extname(file)`: the dotted suffix of the last path segment, empty
when the segment has no dot or only a leading dot. -/
def extname (p : String) : String :=
  let base := (basenameOf p).data
  let dotIdxs := (List.range base.length).filter fun i => base.getD i ' ' = '.'
  match dotIdxs.max? with
  | none => ""
  | some i => if i = 0 then "" else String.mk (base.drop i)

/-- `x || y` for JS strings: empty string is falsy. -/
def jsOrString (x y : String) : String :=
  if x = "" then y else x

/-! ## Constants (src/src/constants.js) -/

/-- `FILE_CATEGORIES` — the fixed extension table. -/
def FILE_CATEGORIES : List (String × List String) :=
  [("code", [".js", ".jsx", ".ts", ".tsx", ".py", ".java", ".cpp", ".c", ".h",
             ".go", ".rs", ".php", ".rb", ".swift", ".kt"]),
   ("web", [".html", ".css", ".scss", ".sass", ".less"]),
   ("data", [".json", ".xml", ".yaml", ".yml", ".toml", ".csv"]),
   ("docs", [".md", ".txt", ".rst", ".tex", ".doc", ".docx", ".pdf"]),
   ("config", [".config", ".conf", ".ini", ".cfg", ".rc"]),
   ("image", [".jpg", ".jpeg", ".png", ".gif", ".svg", ".webp", ".ico"]),
   ("media", [".mp4", ".mp3", ".wav", ".avi", ".mov", ".webm"]),
   ("archive", [".zip", ".tar", ".gz", ".rar", ".7z", ".bz2"])]

/-- `TREE_CHARS.BRANCH`. -/
def TREE_BRANCH : String := "├── "

/-- `TREE_CHARS.LAST_BRANCH`. -/
def TREE_LAST_BRANCH : String := "└── "

/-- `TREE_CHARS.PIPE`. -/
def TREE_PIPE : String := "│   "

/-- `TREE_CHARS.SPACE`. -/
def TREE_SPACE : String := "    "

/-! ## Utilities (src/src/utils.js) -/

/-- `getFileCategory(extension)`: first category whose list contains the
lowercased extension, else `"other"`. -/
def getFileCategory (extension : String) : String :=
  match FILE_CATEGORIES.find? (fun c => (toLowerCase extension) ∈ c.2) with
  | some c => c.1
  | none => "other"

/-- `formatBytes(bytes)` divides by 1024 while `size >= 1024`; JS does this
with floats and prints `toFixed(2)`. Modelled with Nat arithmetic (the
hundredths digit rounding is approximated; no claim inspects these digits). -/
def formatBytesUnit (bytes : Nat) : Nat :=
  if bytes < 1024 then 0
  else if bytes < 1024 ^ 2 then 1
  else if bytes < 1024 ^ 3 then 2
  else if bytes < 1024 ^ 4 then 3
  else 4

/-- Auxiliary for `formatBytes`: the scaled value with two decimal digits. -/
def formatBytesBody (bytes : Nat) : String :=
  let i := formatBytesUnit bytes
  let scaled := bytes * 100 / 1024 ^ i
  toString (scaled / 100) ++ "." ++
    (if scaled % 100 < 10 then "0" else "") ++ toString (scaled % 100)

/-- `formatBytes(bytes)`. -/
def formatBytes (bytes : Nat) : String :=
  formatBytesBody bytes ++ " " ++
    (["B", "KB", "MB", "GB", "TB"].getD (formatBytesUnit bytes) "B")

/-- Octal digits of a Nat below 512 (three digits are enough after the
`& 0o777` mask). -/
def octal3 (n : Nat) : String :=
  toString (n / 64) ++ toString (n / 8 % 8) ++ toString (n % 8)

/-- `formatPermissions(mode)`: `(mode & 0o777)` in octal, zero-padded to 3. -/
def formatPermissions (mode : Nat) : String :=
  octal3 (mode % 512)

/-- `formatTimestamp(date)` = `date.toISOString().split('T')[0]`; dates are
modelled by their ISO strings. -/
def formatTimestamp (date : String) : String :=
  (date.splitOn "T").headI

/-! ## The structure map (Structure Builder, src/src/analyzer.js) -/

/-- A `structureMap` node: a JS `Map` from one path segment to the child
node, insertion-ordered. -/
inductive SMap where
  | mk (entries : List (String × SMap))
deriving Inhabited

/-- `Array.from(map.entries())`. -/
def SMap.entries : SMap → List (String × SMap)
  | .mk es => es

/-- `map.get(part)`. -/
def SMap.get (m : SMap) (k : String) : Option SMap :=
  mapGet m.entries k

/-- `map.has(part)`. -/
def SMap.has (m : SMap) (k : String) : Bool :=
  mapHas m.entries k

/-- `map.set(part, v)`. -/
def SMap.set (m : SMap) (k : String) (v : SMap) : SMap :=
  .mk (mapSet m.entries k v)

/-- `map.size`. -/
def SMap.size (m : SMap) : Nat :=
  m.entries.length

/-- The structure-building fold of `analyze`:
`parts.forEach((part, i) => { if (!current.has(part)) current.set(part, new
Map()); if (i < parts.length - 1) current = current.get(part); })` —
ensure a node for every prefix, descending except after the last segment. -/
def SMap.insertPath : SMap → List String → SMap
  | m, [] => m
  | m, part :: rest =>
    let m1 := if m.has part then m else m.set part (SMap.mk [])
    match rest with
    | [] => m1
    | _ :: _ => m1.set part (((m1.get part).getD (SMap.mk [])).insertPath rest)

/-- Fold a list of relative paths into a structure map (the per-entry
insertions of the analyzer loop, in walker order). -/
def buildStructureMap (paths : List String) : SMap :=
  paths.foldl (fun m p => m.insertPath (splitPath p)) (SMap.mk [])

/-! ## Settings (src/src/config-manager.js) -/

/-- A JS number that can be `Infinity` (the `maxDepth` setting). Integer
values only: `parseInt`/JSON depths are integers (a non-numeric CLI depth
becomes `NaN`, which like `0` is falsy in the `||` chain below). -/
inductive Depth where
  | num (n : Int)
  | infinity
deriving DecidableEq, Inhabited

/-- `depth < maxDepth` for a Nat depth (segment count). -/
def ltDepth (d : Nat) : Depth → Bool
  | .num n => (d : Int) < n
  | .infinity => true

/-- `depth === maxDepth`. -/
def eqDepth (d : Nat) : Depth → Bool
  | .num n => (d : Int) = n
  | .infinity => false

/-- `x || y` for an optional JS integer `x` (absent or `0` falls through). -/
def jsOrDepth (x : Option Int) (y : Depth) : Depth :=
  match x with
  | none => y
  | some n => if n = 0 then y else .num n

/-- `maxDepth: options.depth || config.depth || Infinity`
(ConfigManager.applyConfiguration; identical in
RepoStructure.applyConfiguration of src/index.js). -/
def applyConfigurationMaxDepth (optionsDepth configDepth : Option Int) : Depth :=
  jsOrDepth optionsDepth (jsOrDepth configDepth .infinity)

/-- The settings record the formatters receive (`applyConfiguration` output
merged with the errors/warnings lists that
`RepoStructure.generateOutputFromAnalysis` adds as `formatterOptions`).
Only the fields the analyzer and renderers read are modelled. -/
structure Options where
  directory : String := "."
  showStats : Bool := false
  showFiles : Bool := false
  showSizes : Bool := false
  showTimestamps : Bool := false
  showPermissions : Bool := false
  showGitStatus : Bool := false
  groupByType : Bool := false
  excludeEmpty : Bool := false
  colorOutput : Bool := false
  maxDepth : Depth := .infinity
  errors : List String := []
  warnings : List String := []
deriving Inhabited

/-! ## Entry metadata (Metadata Collector) -/

/-- The `fileInfo` record built per accepted path (`modified` is the mtime's
ISO string, `gitStatus` is `gitStatus[file] || null`). -/
structure FileInfo where
  path : String
  size : Nat
  isDirectory : Bool
  modified : String
  permissions : Nat
  isSymlink : Bool
  gitStatus : Option String
deriving DecidableEq, Inhabited

/-! ## The shared sort contract (sortEntries, src/src/utils.js) -/

/-- The comparator body of `sortEntries`: directory-before-file only when
BOTH fully-qualified child paths have a fileInfo entry, otherwise
`nameA.localeCompare(nameB)`. -/
def sortEntriesCmp (fileInfoMap : List (String × FileInfo)) (parentPath : String)
    (a b : String × SMap) : Int :=
  let pathA := joinPath parentPath a.1
  let pathB := joinPath parentPath b.1
  match mapGet fileInfoMap pathA, mapGet fileInfoMap pathB with
  | some infoA, some infoB =>
    if infoA.isDirectory && !infoB.isDirectory then -1
    else if !infoA.isDirectory && infoB.isDirectory then 1
    else localeCompareInt a.1 b.1
  | _, _ => localeCompareInt a.1 b.1

/-- `x` may stay before `y` after the stable sort: comparator at most 0. -/
def sortEntriesLe (fileInfoMap : List (String × FileInfo)) (parentPath : String)
    (a b : String × SMap) : Bool :=
  sortEntriesCmp fileInfoMap parentPath a b ≤ 0

/-- `sortEntries(entries, fileInfoMap, parentPath)` — the shared sort
contract every tree renderer calls. -/
def sortEntries (entries : List (String × SMap)) (fileInfoMap : List (String × FileInfo))
    (parentPath : String) : List (String × SMap) :=
  stableSort (sortEntriesLe fileInfoMap parentPath) entries

/-! ## The analyzer (src/src/analyzer.js) -/

/-- What `fsPromises.stat` reports for one path: `stat.size`,
`stat.isDirectory()`, `stat.isSymbolicLink()`, `stat.mtime` (as its ISO
string) and `stat.mode`. -/
structure StatInfo where
  size : Nat
  isDirectory : Bool
  isSymlink : Bool
  mtime : String
  mode : Nat
deriving DecidableEq, Inhabited

/-- One walked path with its filesystem outcomes: the stat result, and the
readdir result consulted only for directories under `excludeEmpty`. -/
structure WalkedEntry where
  path : String
  stat : Except String StatInfo
  readdir : Except String (List String)

/-- The `stats` accumulator. `byExtension`/`byCategory` are JS objects:
insertion-ordered association lists of `(key, count, size)`. -/
structure Stats where
  totalFiles : Nat := 0
  totalDirs : Nat := 0
  totalSize : Nat := 0
  byExtension : List (String × Nat × Nat) := []
  byCategory : List (String × Nat × Nat) := []
  largestFiles : List (String × Nat) := []
  errors : Nat := 0
  warnings : Nat := 0
deriving DecidableEq, Inhabited

/-- `if (!stats.byX[k]) stats.byX[k] = {count: 0, size: 0}; count++; size += sz`. -/
def bumpBucket (m : List (String × Nat × Nat)) (k : String) (sz : Nat) :
    List (String × Nat × Nat) :=
  match m with
  | [] => [(k, 1, sz)]
  | (k2, c, s) :: rest =>
    if k2 = k then (k2, c + 1, s + sz) :: rest else (k2, c, s) :: bumpBucket rest k sz

/-- Comparator order for `largestFiles.sort((a, b) => b.size - a.size)`:
`x` stays before `y` iff `y.size - x.size ≤ 0`. -/
def sizeDescLe (x y : String × Nat) : Bool :=
  y.2 ≤ x.2

/-- The largest-files update: push, stable sort descending by size, slice
to the first 10. -/
def updateLargestFiles (largestFiles : List (String × Nat)) (file : String)
    (size : Nat) : List (String × Nat) :=
  (stableSort sizeDescLe (largestFiles ++ [(file, size)])).take 10

/-- The statistics update for one accepted entry (analyzer loop lines
"Update statistics"). -/
def updateStats (stats : Stats) (file : String) (info : StatInfo) : Stats :=
  if info.isDirectory then
    { stats with totalDirs := stats.totalDirs + 1 }
  else
    let ext := jsOrString (extname file) "(no extension)"
    let category := getFileCategory ext
    { stats with
      totalFiles := stats.totalFiles + 1
      totalSize := stats.totalSize + info.size
      byExtension := bumpBucket stats.byExtension ext info.size
      byCategory := bumpBucket stats.byCategory category info.size
      largestFiles := updateLargestFiles stats.largestFiles file info.size }

/-- The analyzer loop's mutable state: `stats`, `structureMap`,
`fileInfoMap`, and the diagnostics lists of the Analyzer instance. -/
structure LoopState where
  stats : Stats
  structureMap : SMap
  fileInfoMap : List (String × FileInfo)
  errors : List String
  warnings : List String

/-- The tail of the loop body once an entry is accepted: build `fileInfo`,
record it, update statistics, fold the path into the structure map. -/
def processAccepted (gitStatus : List (String × String)) (st : LoopState)
    (e : WalkedEntry) (info : StatInfo) : LoopState :=
  let fileInfo : FileInfo :=
    { path := e.path
      size := info.size
      isDirectory := info.isDirectory
      modified := info.mtime
      permissions := info.mode
      isSymlink := info.isSymlink
      gitStatus := mapGet gitStatus e.path }
  { st with
    fileInfoMap := mapSet st.fileInfoMap e.path fileInfo
    stats := updateStats st.stats e.path info
    structureMap := st.structureMap.insertPath (splitPath e.path) }

/-- One iteration of `for (const file of filteredFiles)`: a failed stat
records a warning and skips the path; with `excludeEmpty`, a directory
whose listing is empty is skipped, a failed listing records a warning but
does not skip. -/
def processEntry (opts : Options) (gitStatus : List (String × String))
    (st : LoopState) (e : WalkedEntry) : LoopState :=
  match e.stat with
  | .error msg =>
    { st with warnings :=
        st.warnings ++ ["Could not stat file " ++ e.path ++ ": " ++ msg] }
  | .ok info =>
    if opts.excludeEmpty && info.isDirectory then
      match e.readdir with
      | .ok [] => st
      | .ok (_ :: _) => processAccepted gitStatus st e info
      | .error msg =>
        processAccepted gitStatus
          { st with warnings :=
              st.warnings ++ ["Could not read directory " ++ e.path ++ ": " ++ msg] }
          e info
    else processAccepted gitStatus st e info

/-- What `analyze` returns: `{ files: filteredFiles, stats, structureMap,
fileInfoMap, gitStatus }`. -/
structure AnalysisResult where
  files : List String
  stats : Stats
  structureMap : SMap
  fileInfoMap : List (String × FileInfo)
  gitStatus : List (String × String)

/-- The loop state before the first iteration (`stats.errors`/`warnings`
snapshot the diagnostic counts at that point). -/
def initialLoopState (initErrors initWarnings : List String) : LoopState :=
  { stats := { errors := initErrors.length, warnings := initWarnings.length }
    structureMap := SMap.mk []
    fileInfoMap := []
    errors := initErrors
    warnings := initWarnings }

/-- `Analyzer.analyze`: fold the walked entries (the already-filtered
`filteredFiles`, each with its stat/readdir outcomes) through the loop and
return the result record. Glob discovery and ignore filtering are the
external collaborators producing the input list. -/
def analyze (opts : Options) (gitStatus : List (String × String))
    (initErrors initWarnings : List String) (filteredFiles : List WalkedEntry) :
    AnalysisResult :=
  let final := filteredFiles.foldl (processEntry opts gitStatus)
    (initialLoopState initErrors initWarnings)
  { files := filteredFiles.map (fun e => e.path)
    stats := final.stats
    structureMap := final.structureMap
    fileInfoMap := final.fileInfoMap
    gitStatus := gitStatus }

/-- The warnings after the loop (`analyzer.getWarnings()`). -/
def analyzeWarnings (opts : Options) (gitStatus : List (String × String))
    (initErrors initWarnings : List String) (filteredFiles : List WalkedEntry) :
    List String :=
  (filteredFiles.foldl (processEntry opts gitStatus)
    (initialLoopState initErrors initWarnings)).warnings

/-- The accepted FILE entries of a run, in walker order, as `(path, size)`
pairs: the paths that pass the stat and (under `excludeEmpty`) the
empty-directory check and are not directories — exactly the entries that
feed `totalFiles`, `byExtension`, `byCategory` and `largestFiles`. -/
def acceptedFileEntries (opts : Options) (filteredFiles : List WalkedEntry) :
    List (String × Nat) :=
  filteredFiles.filterMap fun e =>
    match e.stat with
    | .error _ => none
    | .ok info =>
      if opts.excludeEmpty && info.isDirectory then
        match e.readdir with
        | .ok [] => none
        | _ => if info.isDirectory then none else some (e.path, info.size)
      else if info.isDirectory then none else some (e.path, info.size)

/-! ## Sort lemmas needed before the renderers (termination measures) -/

/-- `insertSorted` produces a permutation of consing the element. -/
theorem insertSorted_perm (le : α → α → Bool) (a : α) (l : List α) :
    (insertSorted le a l).Perm (a :: l) := by
  induction l with
  | nil => simp [insertSorted]
  | cons b t ih =>
    simp only [insertSorted]
    split
    · exact (ih.cons b).trans (List.Perm.swap a b t)
    · exact List.Perm.refl _

/-- `stableSort` permutes its input. -/
theorem stableSort_perm (le : α → α → Bool) (l : List α) :
    (stableSort le l).Perm l := by
  suffices h : ∀ (l acc : List α),
      (l.foldl (fun acc x => insertSorted le x acc) acc).Perm (acc ++ l) by
    simpa using h l []
  intro l
  induction l with
  | nil => simp
  | cons x t ih =>
    intro acc
    simp only [List.foldl_cons]
    refine (ih (insertSorted le x acc)).trans ?_
    refine ((insertSorted_perm le x acc).append_right t).trans ?_
    exact List.perm_middle.symm

/-- Permutations preserve `sizeOf` (used as the renderers' termination
measure across the sibling sort). -/
theorem perm_sizeOf_eq [SizeOf α] {l1 l2 : List α} (h : l1.Perm l2) :
    sizeOf l1 = sizeOf l2 := by
  induction h with
  | nil => rfl
  | cons a _ ih => simp only [List.cons.sizeOf_spec]; omega
  | swap a b l => simp only [List.cons.sizeOf_spec]; omega
  | trans _ _ ih1 ih2 => omega

/-- `sortEntries` preserves `sizeOf`. -/
theorem sortEntries_sizeOf (entries : List (String × SMap))
    (fim : List (String × FileInfo)) (parentPath : String) :
    sizeOf (sortEntries entries fim parentPath) = sizeOf entries :=
  perm_sizeOf_eq (stableSort_perm _ entries)

/-! ## Shared renderer helpers (src/src/formatters) -/

/-- `"=".repeat(n)` and friends. -/
def repeatStr (s : String) (n : Nat) : String :=
  String.join (List.replicate n s)

/-- A `forEach` loop appending `f x` to the output for each element. -/
def concatStrs (f : α → String) : List α → String
  | [] => ""
  | a :: t => f a ++ concatStrs f t

/-- `String.prototype.toUpperCase`, character-wise. -/
def toUpperCase (s : String) : String :=
  String.mk (s.data.map Char.toUpper)

/-- JS default `Array.prototype.sort()` string order (code-unit
comparison), as the stable-sort keep-before relation. -/
def defaultStrLe (a b : String) : Bool :=
  cmpStr a b ≠ Ordering.gt

/-- Keep-before relation of `.sort(([, a], [, b]) => b.count - a.count)`
over `(key, count, size)` buckets. -/
def countDescLe (x y : String × Nat × Nat) : Bool :=
  y.2.1 ≤ x.2.1

/-- `path.resolve(this.options.directory || '.')`: resolution against the
process working directory is modelled as the identity — the claims only
use the final path segment, which resolution preserves for the relative
directory names considered here. -/
def resolveDir (d : String) : String :=
  jsOrString d "."

/-- `this.options.errors.length > 0 || this.options.warnings.length > 0`. -/
def hasIssues (opts : Options) : Bool :=
  opts.errors.length > 0 || opts.warnings.length > 0

/-! ## Text formatter (src/src/formatters/text-formatter.js)

Each renderer's `sortedEntries.forEach(...)` loop is its own mutually
recursive function (`...Loop`), carrying the running index and the sibling
count for the `isLast` test. -/

/-- `getColorForFile(name, fileInfo)`: every branch wraps `name` in a chalk
color function, and chalk is modelled as the identity, so the result is
`name` itself (the `!name` guard returns `name || ''` = `name` too). -/
def TextFormatter.getColorForFile (_opts : Options) (name : String)
    (_fileInfo : Option FileInfo) : String :=
  name

/-- Single-letter git badge of the detailed text tree
(`statusColors[fileInfo.gitStatus] || chalk.gray('?')`). -/
def gitStatusLetter (status : String) : String :=
  if status = "modified" then "M"
  else if status = "added" then "A"
  else if status = "deleted" then "D"
  else if status = "untracked" then "?"
  else if status = "renamed" then "R"
  else "?"

/-- The `extras` array of `generateStructureText` (sizes, timestamp,
permissions, git badge, symlink arrow, in source order). -/
def textExtras (opts : Options) (fileInfo : Option FileInfo) : List String :=
  match fileInfo with
  | some fi =>
    (if opts.showSizes && !fi.isDirectory then ["(" ++ formatBytes fi.size ++ ")"] else []) ++
    (if opts.showTimestamps then ["[" ++ formatTimestamp fi.modified ++ "]"] else []) ++
    (if opts.showPermissions then ["<" ++ formatPermissions fi.permissions ++ ">"] else []) ++
    (if opts.showGitStatus then
      match fi.gitStatus with
      | some gs => [gitStatusLetter gs]
      | none => []
    else []) ++
    (if fi.isSymlink then ["→"] else [])
  | none => []

mutual

/-- `generateSimpleStructureText(map, fileInfoMap, prefix, parentPath)`. -/
def TextFormatter.generateSimpleStructureText (opts : Options)
    (fim : List (String × FileInfo)) (m : SMap) (pfx parentPath : String) : String :=
  TextFormatter.simpleStructureLoop opts fim
    (sortEntries m.entries fim parentPath) 0 m.entries.length pfx parentPath
termination_by sizeOf m
decreasing_by
  cases m with
  | mk es =>
    simp only [sortEntries_sizeOf, SMap.entries, SMap.mk.sizeOf_spec]
    omega

/-- The `sortedEntries.forEach((​[name, subMap], index) => ...)` loop of
`generateSimpleStructureText`. -/
def TextFormatter.simpleStructureLoop (opts : Options)
    (fim : List (String × FileInfo)) (l : List (String × SMap))
    (idx total : Nat) (pfx parentPath : String) : String :=
  match l with
  | [] => ""
  | (name, subMap) :: rest =>
    let isLast := idx = total - 1
    let branch := if isLast then TREE_LAST_BRANCH else TREE_BRANCH
    let newPfx := pfx ++ (if isLast then TREE_SPACE else TREE_PIPE)
    let currentPath := joinPath parentPath name
    pfx ++ branch ++ name ++ "\n" ++
      (if subMap.size > 0 then
        if ltDepth (splitPath currentPath).length opts.maxDepth then
          TextFormatter.generateSimpleStructureText opts fim subMap newPfx currentPath
        else ""
      else "") ++
      TextFormatter.simpleStructureLoop opts fim rest (idx + 1) total pfx parentPath
termination_by sizeOf l
decreasing_by
  · simp only [List.cons.sizeOf_spec, Prod.mk.sizeOf_spec]; omega
  · simp only [List.cons.sizeOf_spec]; omega

end

mutual

/-- `generateStructureText(map, fileInfoMap, prefix, parentPath)` — the
detailed text tree, with the `...` placeholder at `depth === maxDepth`. -/
def TextFormatter.generateStructureText (opts : Options)
    (fim : List (String × FileInfo)) (m : SMap) (pfx parentPath : String) : String :=
  TextFormatter.structureLoop opts fim
    (sortEntries m.entries fim parentPath) 0 m.entries.length pfx parentPath
termination_by sizeOf m
decreasing_by
  cases m with
  | mk es =>
    simp only [sortEntries_sizeOf, SMap.entries, SMap.mk.sizeOf_spec]
    omega

/-- The `sortedEntries.forEach(...)` loop of `generateStructureText`. -/
def TextFormatter.structureLoop (opts : Options)
    (fim : List (String × FileInfo)) (l : List (String × SMap))
    (idx total : Nat) (pfx parentPath : String) : String :=
  match l with
  | [] => ""
  | (name, subMap) :: rest =>
    let isLast := idx = total - 1
    let branch := if isLast then TREE_LAST_BRANCH else TREE_BRANCH
    let newPfx := pfx ++ (if isLast then TREE_SPACE else TREE_PIPE)
    let currentPath := joinPath parentPath name
    let fileInfo := mapGet fim currentPath
    let displayName := TextFormatter.getColorForFile opts name fileInfo
    let extras := textExtras opts fileInfo
    let displayName2 :=
      if extras.length > 0 then displayName ++ " " ++ String.intercalate " " extras
      else displayName
    pfx ++ branch ++ displayName2 ++ "\n" ++
      (if subMap.size > 0 then
        if ltDepth (splitPath currentPath).length opts.maxDepth then
          TextFormatter.generateStructureText opts fim subMap newPfx currentPath
        else if eqDepth (splitPath currentPath).length opts.maxDepth then
          newPfx ++ TREE_BRANCH ++ "..." ++ "\n"
        else ""
      else "") ++
      TextFormatter.structureLoop opts fim rest (idx + 1) total pfx parentPath
termination_by sizeOf l
decreasing_by
  · simp only [List.cons.sizeOf_spec, Prod.mk.sizeOf_spec]; omega
  · simp only [List.cons.sizeOf_spec]; omega

end

/-- `generateStats(stats)`. -/
def TextFormatter.generateStats (stats : Stats) : String :=
  "Statistics:\n" ++ repeatStr "=" 60 ++ "\n" ++
  "Total Files: " ++ toString stats.totalFiles ++ "\n" ++
  "Total Directories: " ++ toString stats.totalDirs ++ "\n" ++
  "Total Size: " ++ formatBytes stats.totalSize ++ "\n\n" ++
  (if stats.byCategory.length > 0 then
    "Files by Category:\n" ++ repeatStr "-" 40 ++ "\n" ++
    concatStrs (fun c => c.1 ++ ": " ++ toString c.2.1 ++ " files (" ++
        formatBytes c.2.2 ++ ")\n")
      (stableSort countDescLe stats.byCategory) ++ "\n"
  else "") ++
  "Files by Extension:\n" ++ repeatStr "-" 40 ++ "\n" ++
  concatStrs (fun x => x.1 ++ ": " ++ toString x.2.1 ++ " files (" ++
      formatBytes x.2.2 ++ ")\n")
    ((stableSort countDescLe stats.byExtension).take 15) ++ "\n" ++
  (if stats.largestFiles.length > 0 then
    "Largest Files:\n" ++ repeatStr "-" 40 ++ "\n" ++
    concatStrs (fun f => f.1 ++ " (" ++ formatBytes f.2 ++ ")\n")
      stats.largestFiles ++ "\n"
  else "")

/-- JS object keyed by category holding file lists, insertion-ordered
(`filesByCategory[category].push(file)`). -/
def bumpList (m : List (String × List String)) (k : String) (v : String) :
    List (String × List String) :=
  match m with
  | [] => [(k, [v])]
  | (k2, vs) :: rest =>
    if k2 = k then (k2, vs ++ [v]) :: rest else (k2, vs) :: bumpList rest k v

/-- Keep-before relation for
`.sort(([catA], [catB]) => catA.localeCompare(catB))`. -/
def catNameLe (x y : String × List String) : Bool :=
  localeCompareInt x.1 y.1 ≤ 0

/-- `generateFileList(files, fileInfoMap)`. -/
def TextFormatter.generateFileList (opts : Options) (files : List String)
    (fim : List (String × FileInfo)) : String :=
  "File List:\n" ++ repeatStr "=" 60 ++ "\n" ++
  (if opts.groupByType then
    let filesByCategory := files.foldl (fun acc file =>
      match mapGet fim file with
      | some fi =>
        if !fi.isDirectory then bumpList acc (getFileCategory (extname file)) file
        else acc
      | none => acc) []
    concatStrs (fun c =>
      "\n" ++ toUpperCase c.1 ++ " FILES:\n" ++ repeatStr "-" 40 ++ "\n" ++
      concatStrs (fun file =>
        let sizeStr := match mapGet fim file with
          | some fi => if opts.showSizes then " (" ++ formatBytes fi.size ++ ")" else ""
          | none => ""
        file ++ sizeStr ++ "\n") (stableSort defaultStrLe c.2))
      (stableSort catNameLe filesByCategory)
  else
    concatStrs (fun file =>
      match mapGet fim file with
      | some fi =>
        if !fi.isDirectory then
          let sizeStr := if opts.showSizes then " (" ++ formatBytes fi.size ++ ")" else ""
          let tsStr := if opts.showTimestamps then " [" ++ formatTimestamp fi.modified ++ "]" else ""
          file ++ sizeStr ++ tsStr ++ "\n"
        else ""
      | none => "") (stableSort defaultStrLe files))

/-- `generateIssues(errors, warnings)`. -/
def TextFormatter.generateIssues (errors warnings : List String) : String :=
  "\nIssues:\n" ++ repeatStr "=" 60 ++ "\n" ++
  (if errors.length > 0 then
    "Errors (" ++ toString errors.length ++ "):\n" ++
    concatStrs (fun e => "  - " ++ e ++ "\n") errors
  else "") ++
  (if warnings.length > 0 then
    "\nWarnings (" ++ toString warnings.length ++ "):\n" ++
    concatStrs (fun w => "  - " ++ w ++ "\n") warnings
  else "")

/-- The simple-format test of `TextFormatter.format`: no display flag set. -/
def simpleFormat (opts : Options) : Bool :=
  !opts.showStats && !opts.showFiles && !opts.showSizes &&
  !opts.showTimestamps && !opts.showPermissions && !opts.showGitStatus

/-- `TextFormatter.format(analysisResult)` (`now` models
`new Date().toISOString()`). -/
def TextFormatter.format (opts : Options) (now : String) (res : AnalysisResult) :
    String :=
  if simpleFormat opts then
    basenameOf (resolveDir opts.directory) ++ "\n" ++
    TextFormatter.generateSimpleStructureText opts res.fileInfoMap res.structureMap "" ""
  else
    "Directory Structure:\n" ++ repeatStr "=" 60 ++ "\n" ++
    "Generated: " ++ now ++ "\n" ++
    "Directory: " ++ resolveDir opts.directory ++ "\n" ++
    repeatStr "-" 60 ++ "\n\n" ++
    TextFormatter.generateStructureText opts res.fileInfoMap res.structureMap "" "" ++
    "\n" ++
    (if opts.showStats then TextFormatter.generateStats res.stats else "") ++
    (if opts.showFiles then TextFormatter.generateFileList opts res.files res.fileInfoMap else "") ++
    (if hasIssues opts then TextFormatter.generateIssues opts.errors opts.warnings else "")

/-! ## Markdown formatter (src/src/formatters/markdown-formatter.js) -/

/-- `getGitStatusBadge(status)`. -/
def MarkdownFormatter.getGitStatusBadge (status : String) : String :=
  if status = "modified" then "`[M]`"
  else if status = "added" then "`[A]`"
  else if status = "deleted" then "`[D]`"
  else if status = "untracked" then "`[?]`"
  else if status = "renamed" then "`[R]`"
  else "`[?]`"

/-- The `extras` array of `generateMarkdownStructure` (italic size,
backticked date, git badge, symlink marker, in source order). -/
def mdExtras (opts : Options) (fileInfo : Option FileInfo) : List String :=
  match fileInfo with
  | some fi =>
    (if opts.showSizes && !fi.isDirectory then ["*" ++ formatBytes fi.size ++ "*"] else []) ++
    (if opts.showTimestamps then ["`" ++ formatTimestamp fi.modified ++ "`"] else []) ++
    (if opts.showGitStatus then
      match fi.gitStatus with
      | some gs => [MarkdownFormatter.getGitStatusBadge gs]
      | none => []
    else []) ++
    (if fi.isSymlink then ["`→ symlink`"] else [])
  | none => []

mutual

/-- `generateMarkdownStructure(map, fileInfoMap, level, parentPath)` — the
nested bullet list, directories bold with a trailing slash, with the
`*...*` placeholder at `depth === maxDepth`. -/
def MarkdownFormatter.generateMarkdownStructure (opts : Options)
    (fim : List (String × FileInfo)) (m : SMap) (level : Nat)
    (parentPath : String) : String :=
  MarkdownFormatter.markdownLoop opts fim
    (sortEntries m.entries fim parentPath) level parentPath
termination_by sizeOf m
decreasing_by
  cases m with
  | mk es =>
    simp only [sortEntries_sizeOf, SMap.entries, SMap.mk.sizeOf_spec]
    omega

/-- The `sortedEntries.forEach(...)` loop of `generateMarkdownStructure`. -/
def MarkdownFormatter.markdownLoop (opts : Options)
    (fim : List (String × FileInfo)) (l : List (String × SMap))
    (level : Nat) (parentPath : String) : String :=
  match l with
  | [] => ""
  | (name, subMap) :: rest =>
    let currentPath := joinPath parentPath name
    let fileInfo := mapGet fim currentPath
    let indent := repeatStr "  " level
    let displayName := match fileInfo with
      | some fi => if fi.isDirectory then "**" ++ name ++ "/**" else name
      | none => name
    let extras := mdExtras opts fileInfo
    indent ++ "- " ++ displayName ++
      (if extras.length > 0 then " " ++ String.intercalate " " extras else "") ++ "\n" ++
      (if subMap.size > 0 then
        if ltDepth (splitPath currentPath).length opts.maxDepth then
          MarkdownFormatter.generateMarkdownStructure opts fim subMap (level + 1) currentPath
        else if eqDepth (splitPath currentPath).length opts.maxDepth then
          indent ++ "  - *...*\n"
        else ""
      else "") ++
      MarkdownFormatter.markdownLoop opts fim rest level parentPath
termination_by sizeOf l
decreasing_by
  · simp only [List.cons.sizeOf_spec, Prod.mk.sizeOf_spec]; omega
  · simp only [List.cons.sizeOf_spec]; omega

end

/-- `MarkdownFormatter.format(analysisResult)`. -/
def MarkdownFormatter.format (opts : Options) (now : String)
    (res : AnalysisResult) : String :=
  "# Repository Structure\n\n" ++
  "Generated on: " ++ now ++ "\n\n" ++
  "## Directory Tree\n\n" ++
  MarkdownFormatter.generateMarkdownStructure opts res.fileInfoMap res.structureMap 0 "" ++
  (if opts.showStats then
    "\n## Statistics\n\n" ++
    "- **Total Files**: " ++ toString res.stats.totalFiles ++ "\n" ++
    "- **Total Directories**: " ++ toString res.stats.totalDirs ++ "\n" ++
    "- **Total Size**: " ++ formatBytes res.stats.totalSize ++ "\n\n" ++
    (if res.stats.byCategory.length > 0 then
      "### Files by Category\n\n" ++
      concatStrs (fun c => "- **" ++ c.1 ++ "**: " ++ toString c.2.1 ++
          " files (" ++ formatBytes c.2.2 ++ ")\n")
        (stableSort countDescLe res.stats.byCategory) ++ "\n"
    else "") ++
    (if res.stats.byExtension.length > 0 then
      "### Top File Extensions\n\n" ++
      concatStrs (fun x => "- **" ++ x.1 ++ "**: " ++ toString x.2.1 ++
          " files (" ++ formatBytes x.2.2 ++ ")\n")
        ((stableSort countDescLe res.stats.byExtension).take 10) ++ "\n"
    else "") ++
    (if res.stats.largestFiles.length > 0 then
      "### Largest Files\n\n" ++
      "| File | Size |\n" ++ "|------|------|\n" ++
      concatStrs (fun f => "| " ++ f.1 ++ " | " ++ formatBytes f.2 ++ " |\n")
        res.stats.largestFiles ++ "\n"
    else "")
  else "") ++
  (if hasIssues opts then
    "## Issues\n\n" ++
    (if opts.errors.length > 0 then
      "### Errors (" ++ toString opts.errors.length ++ ")\n\n" ++
      concatStrs (fun e => "- " ++ e ++ "\n") opts.errors ++ "\n"
    else "") ++
    (if opts.warnings.length > 0 then
      "### Warnings (" ++ toString opts.warnings.length ++ ")\n\n" ++
      concatStrs (fun w => "- " ++ w ++ "\n") opts.warnings ++ "\n"
    else "")
  else "")

/-! ## JSON formatter (src/src/formatters/json-formatter.js)

The JSON output is modelled structurally: `JNode` is the node object
`{type, children?, size?, modified?, permissions?, gitStatus?}` (a `none`
field is `undefined` and dropped by `JSON.stringify`), and `JsonOutput` the
top-level object; `JSON.stringify(jsonOutput, null, 2)` serializes these
values and is not modelled textually. -/

/-- One node of the JSON `structure` object. -/
inductive JNode where
  | mk (jtype : String) (children : Option (List (String × JNode)))
       (size : Option Nat) (modified : Option String)
       (permissions : Option String) (gitStatus : Option String)

/-- The node's `children` field. -/
def JNode.children : JNode → Option (List (String × JNode))
  | .mk _ cs _ _ _ _ => cs

/-- The node's `type` field. -/
def JNode.jtype : JNode → String
  | .mk t _ _ _ _ _ => t

mutual

/-- `generateJSONStructure(map, fileInfoMap, parentPath)`. Note: it walks
`map.forEach(...)` in INSERTION order (no `sortEntries`) and never consults
`maxDepth`. The optional fields are set after the node literal in source;
here the node is built in one step with the same conditions
(`showGitStatus && fileInfo.gitStatus` keeps the status only when present). -/
def JSONFormatter.generateJSONStructure (opts : Options)
    (fim : List (String × FileInfo)) (m : SMap) (parentPath : String) :
    List (String × JNode) :=
  JSONFormatter.jsonStructureLoop opts fim m.entries parentPath
termination_by sizeOf m
decreasing_by
  cases m with
  | mk es => simp only [SMap.entries, SMap.mk.sizeOf_spec]; omega

/-- The `map.forEach((subMap, name) => ...)` loop of
`generateJSONStructure`. -/
def JSONFormatter.jsonStructureLoop (opts : Options)
    (fim : List (String × FileInfo)) (l : List (String × SMap))
    (parentPath : String) : List (String × JNode) :=
  match l with
  | [] => []
  | (name, subMap) :: rest =>
    let currentPath := joinPath parentPath name
    let fileInfo := mapGet fim currentPath
    let jtype : String :=
      if subMap.size > 0 then "directory"
      else match fileInfo with
        | some fi => if fi.isDirectory then "directory" else "file"
        | none => "file"
    let children : Option (List (String × JNode)) :=
      if subMap.size > 0 then
        some (JSONFormatter.generateJSONStructure opts fim subMap currentPath)
      else none
    let node : JNode :=
      match fileInfo with
      | none => JNode.mk jtype children none none none none
      | some fi =>
        JNode.mk jtype children
          (if opts.showSizes && !fi.isDirectory then some fi.size else none)
          (if opts.showTimestamps then some fi.modified else none)
          (if opts.showPermissions then some (formatPermissions fi.permissions) else none)
          (if opts.showGitStatus then fi.gitStatus else none)
    (name, node) :: JSONFormatter.jsonStructureLoop opts fim rest parentPath
termination_by sizeOf l
decreasing_by
  · simp only [List.cons.sizeOf_spec, Prod.mk.sizeOf_spec]; omega
  · simp only [List.cons.sizeOf_spec]; omega

end

/-- The top-level JSON object of `JSONFormatter.format` (a `none` field is
an `undefined` one, dropped by `JSON.stringify`). -/
structure JsonOutput where
  generated : String
  directory : String
  structure_ : List (String × JNode)
  stats : Option Stats
  errors : Option (List String)
  warnings : Option (List String)

/-- `JSONFormatter.format(analysisResult)` as the object it stringifies. -/
def JSONFormatter.formatValue (opts : Options) (now : String)
    (res : AnalysisResult) : JsonOutput :=
  { generated := now
    directory := resolveDir opts.directory
    structure_ := JSONFormatter.generateJSONStructure opts res.fileInfoMap res.structureMap ""
    stats := if opts.showStats then some res.stats else none
    errors := if opts.errors.length > 0 then some opts.errors else none
    warnings := if opts.warnings.length > 0 then some opts.warnings else none }

/-! ## Path extraction (for the cross-format claims)

`flattenJSONPaths` reconstructs the path list of a JSON `structure` object
(each key joined to its parent, preorder, in object-key order);
`simpleTreePaths` is the path trace of the simple text tree — the
fully-qualified path of every line `generateSimpleStructureText` prints, in
print order (same sort, same descent condition); `allPaths` is the
insertion-order preorder path list of a structure map. -/

/-- Flatten a JSON `structure` object into the full paths of its keys. -/
def flattenJSONPaths : List (String × JNode) → String → List String
  | [], _ => []
  | (name, node) :: rest, parentPath =>
    joinPath parentPath name ::
      ((match node with
        | JNode.mk _ (some cs) _ _ _ _ => flattenJSONPaths cs (joinPath parentPath name)
        | JNode.mk _ none _ _ _ _ => []) ++
        flattenJSONPaths rest parentPath)
termination_by l _ => sizeOf l
decreasing_by
  · simp only [List.cons.sizeOf_spec, Prod.mk.sizeOf_spec, JNode.mk.sizeOf_spec,
      Option.some.sizeOf_spec]
    omega
  · simp only [List.cons.sizeOf_spec]; omega

mutual

/-- The paths printed by `generateSimpleStructureText`, in print order. -/
def simpleTreePaths (opts : Options) (fim : List (String × FileInfo))
    (m : SMap) (parentPath : String) : List String :=
  simpleTreePathsLoop opts fim (sortEntries m.entries fim parentPath) parentPath
termination_by sizeOf m
decreasing_by
  cases m with
  | mk es =>
    simp only [sortEntries_sizeOf, SMap.entries, SMap.mk.sizeOf_spec]
    omega

/-- The per-sibling loop of `simpleTreePaths`. -/
def simpleTreePathsLoop (opts : Options) (fim : List (String × FileInfo))
    (l : List (String × SMap)) (parentPath : String) : List String :=
  match l with
  | [] => []
  | (name, subMap) :: rest =>
    let currentPath := joinPath parentPath name
    (currentPath ::
      (if subMap.size > 0 then
        if ltDepth (splitPath currentPath).length opts.maxDepth then
          simpleTreePaths opts fim subMap currentPath
        else []
      else [])) ++
      simpleTreePathsLoop opts fim rest parentPath
termination_by sizeOf l
decreasing_by
  · simp only [List.cons.sizeOf_spec, Prod.mk.sizeOf_spec]; omega
  · simp only [List.cons.sizeOf_spec]; omega

end

mutual

/-- All paths of a structure map (insertion-order preorder). -/
def allPaths (m : SMap) (parentPath : String) : List String :=
  allPathsLoop m.entries parentPath
termination_by sizeOf m
decreasing_by
  cases m with
  | mk es => simp only [SMap.entries, SMap.mk.sizeOf_spec]; omega

/-- The per-sibling loop of `allPaths`. -/
def allPathsLoop : List (String × SMap) → String → List String
  | [], _ => []
  | (name, subMap) :: rest, parentPath =>
    (joinPath parentPath name :: allPaths subMap (joinPath parentPath name)) ++
      allPathsLoop rest parentPath
termination_by l _ => sizeOf l
decreasing_by
  · simp only [List.cons.sizeOf_spec, Prod.mk.sizeOf_spec]; omega
  · simp only [List.cons.sizeOf_spec]; omega

end

/-! ## Order lemmas for the comparators -/

/-- Swapping the arguments of `cmpChars` swaps the outcome. -/
theorem cmpChars_swap (a b : List Char) : cmpChars b a = (cmpChars a b).swap := by
  induction a generalizing b with
  | nil => cases b <;> simp [cmpChars, Ordering.swap]
  | cons x as ih =>
    cases b with
    | nil => simp [cmpChars, Ordering.swap]
    | cons y bs =>
      simp only [cmpChars]
      rcases lt_trichotomy x y with h | h | h
      · simp [h, not_lt.2 h.le, ne_of_gt h, Ordering.swap]
      · subst h
        simp [lt_irrefl, ih]
      · simp [h, not_lt.2 h.le, Ordering.swap]

/-- `cmpChars` is `eq` exactly on equal lists. -/
theorem cmpChars_eq_iff (a b : List Char) : cmpChars a b = Ordering.eq ↔ a = b := by
  induction a generalizing b with
  | nil => cases b <;> simp [cmpChars]
  | cons x as ih =>
    cases b with
    | nil => simp [cmpChars]
    | cons y bs =>
      simp only [cmpChars]
      rcases lt_trichotomy x y with h | h | h
      · simp [h, ne_of_lt h]
      · subst h
        simp [lt_irrefl, ih]
      · simp only [if_neg (not_lt.2 h.le), if_pos h]
        simp only [List.cons.injEq]
        constructor
        · intro he; exact absurd he (by decide)
        · intro he; exact absurd he.1 (ne_of_gt h)

/-- Transitivity of the non-`gt` (at-most) relation of `cmpChars`. -/
theorem cmpChars_le_trans {a b c : List Char}
    (h1 : cmpChars a b ≠ Ordering.gt) (h2 : cmpChars b c ≠ Ordering.gt) :
    cmpChars a c ≠ Ordering.gt := by
  induction a generalizing b c with
  | nil => cases c <;> simp [cmpChars]
  | cons x as ih =>
    cases b with
    | nil => simp [cmpChars] at h1
    | cons y bs =>
      cases c with
      | nil => simp [cmpChars] at h2
      | cons z cs =>
        simp only [cmpChars] at h1 h2 ⊢
        rcases lt_trichotomy x y with hxy | hxy | hxy
        · rcases lt_trichotomy y z with hyz | hyz | hyz
          · simp [lt_trans hxy hyz]
          · subst hyz; simp [hxy]
          · simp [hyz, not_lt.2 hyz.le] at h2
        · subst hxy
          rcases lt_trichotomy x z with hxz | hxz | hxz
          · simp [hxz]
          · subst hxz
            simp only [lt_irrefl, if_neg (lt_irrefl x).elim] at h1 h2 ⊢
            simp at h1 h2 ⊢
            exact ih h1 h2
          · simp [hxz, not_lt.2 hxz.le] at h2 ⊢
        · simp [hxy, not_lt.2 hxy.le] at h1

/-- Membership across `insertSorted`. -/
theorem mem_insertSorted {le : α → α → Bool} {a x : α} {l : List α} :
    x ∈ insertSorted le a l ↔ x = a ∨ x ∈ l := by
  have h := (insertSorted_perm le a l).mem_iff (a := x)
  simpa using h

/-- `insertSorted` keeps a list pairwise-ordered, given totality of the
relation between the new element and the list and transitivity over the
elements involved. -/
theorem insertSorted_pairwise {le : α → α → Bool} {a : α} {l : List α}
    (hl : l.Pairwise (fun x y => le x y = true))
    (htot : ∀ b ∈ l, le b a = true ∨ le a b = true)
    (htrans : ∀ b ∈ l, ∀ c ∈ l, le a b = true → le b c = true → le a c = true) :
    (insertSorted le a l).Pairwise (fun x y => le x y = true) := by
  induction l with
  | nil => simp [insertSorted]
  | cons b t ih =>
    rcases List.pairwise_cons.1 hl with ⟨hbt, ht⟩
    simp only [insertSorted]
    by_cases hba : le b a = true
    · rw [if_pos hba]
      refine List.pairwise_cons.2 ⟨?_, ?_⟩
      · intro y hy
        rcases mem_insertSorted.1 hy with rfl | hyt
        · exact hba
        · exact hbt y hyt
      · refine ih ht ?_ ?_
        · intro c hc
          exact htot c (List.mem_cons_of_mem _ hc)
        · intro c hc d hd hac hcd
          exact htrans c (List.mem_cons_of_mem _ hc) d (List.mem_cons_of_mem _ hd) hac hcd
    · rw [if_neg hba]
      have hab : le a b = true :=
        (htot b (List.mem_cons_self _ _)).resolve_left hba
      refine List.pairwise_cons.2 ⟨?_, hl⟩
      intro y hy
      rcases List.mem_cons.1 hy with rfl | hyt
      · exact hab
      · exact htrans b (List.mem_cons_self _ _) y (List.mem_cons_of_mem _ hyt) hab (hbt y hyt)

/-- The stable sort orders its output, given totality and transitivity of
the comparator over the input's elements. -/
theorem stableSort_pairwise {le : α → α → Bool} {l : List α}
    (htot : ∀ x ∈ l, ∀ y ∈ l, le x y = true ∨ le y x = true)
    (htrans : ∀ x ∈ l, ∀ y ∈ l, ∀ z ∈ l, le x y = true → le y z = true → le x z = true) :
    (stableSort le l).Pairwise (fun x y => le x y = true) := by
  suffices h : ∀ (t acc : List α), acc.Pairwise (fun x y => le x y = true) →
      (∀ x ∈ acc, x ∈ l) → (∀ x ∈ t, x ∈ l) →
      (t.foldl (fun acc x => insertSorted le x acc) acc).Pairwise
        (fun x y => le x y = true) by
    exact h l [] (by simp) (by simp) (fun x hx => hx)
  intro t
  induction t with
  | nil => intro acc hacc _ _; simpa using hacc
  | cons e t2 ih =>
    intro acc hacc haccl htl
    simp only [List.foldl_cons]
    refine ih (insertSorted le e acc) ?_ ?_ ?_
    · refine insertSorted_pairwise hacc ?_ ?_
      · intro b hb
        have h1 := htot b (haccl b hb) e (htl e (List.mem_cons_self _ _))
        tauto
      · intro b hb c hc
        exact htrans e (htl e (List.mem_cons_self _ _)) b (haccl b hb) c (haccl c hc)
    · intro x hx
      rcases mem_insertSorted.1 hx with rfl | hxa
      · exact htl x (List.mem_cons_self _ _)
      · exact haccl x hxa
    · intro x hx
      exact htl x (List.mem_cons_of_mem _ hx)

/-- A take of a stable sort is a sub-multiset of the input. -/
theorem take_stableSort_subperm (le : α → α → Bool) (l : List α) (n : Nat) :
    ((stableSort le l).take n).Subperm l :=
  ((List.take_sublist n (stableSort le l)).subperm).trans (stableSort_perm le l).subperm

/-! ## Analyzer step lemmas -/

/-- The warnings one loop iteration appends for an entry. -/
def entryWarnings (opts : Options) (e : WalkedEntry) : List String :=
  match e.stat with
  | .error msg => ["Could not stat file " ++ e.path ++ ": " ++ msg]
  | .ok info =>
    if opts.excludeEmpty && info.isDirectory then
      match e.readdir with
      | .error msg => ["Could not read directory " ++ e.path ++ ": " ++ msg]
      | .ok _ => []
    else []

/-- A failed stat appends exactly its warning and changes nothing else. -/
theorem processEntry_stat_error {opts : Options} {git : List (String × String)}
    {st : LoopState} {e : WalkedEntry} {msg : String} (h : e.stat = .error msg) :
    processEntry opts git st e =
      { st with warnings :=
          st.warnings ++ ["Could not stat file " ++ e.path ++ ": " ++ msg] } := by
  simp [processEntry, h]

/-- With `excludeEmpty`, a directory whose listing is empty is skipped:
the loop state is untouched. -/
theorem processEntry_empty_dir {opts : Options} {git : List (String × String)}
    {st : LoopState} {e : WalkedEntry} {info : StatInfo}
    (hst : e.stat = .ok info) (hex : opts.excludeEmpty = true)
    (hdir : info.isDirectory = true) (hrd : e.readdir = .ok []) :
    processEntry opts git st e = st := by
  simp [processEntry, hst, hex, hdir, hrd]

/-- With `excludeEmpty`, a directory whose listing FAILS is processed
anyway, after recording the readdir warning. -/
theorem processEntry_readdir_error {opts : Options} {git : List (String × String)}
    {st : LoopState} {e : WalkedEntry} {info : StatInfo} {msg : String}
    (hst : e.stat = .ok info) (hex : opts.excludeEmpty = true)
    (hdir : info.isDirectory = true) (hrd : e.readdir = .error msg) :
    processEntry opts git st e =
      processAccepted git
        { st with warnings :=
            st.warnings ++ ["Could not read directory " ++ e.path ++ ": " ++ msg] }
        e info := by
  simp [processEntry, hst, hex, hdir, hrd]

/-- Any other statted entry is accepted as-is. -/
theorem processEntry_accepted {opts : Options} {git : List (String × String)}
    {st : LoopState} {e : WalkedEntry} {info : StatInfo}
    (hst : e.stat = .ok info) (hne : (opts.excludeEmpty && info.isDirectory) = false) :
    processEntry opts git st e = processAccepted git st e info := by
  simp [processEntry, hst, hne]

/-- One loop iteration appends exactly `entryWarnings` to the warnings. -/
theorem processEntry_warnings (opts : Options) (git : List (String × String))
    (st : LoopState) (e : WalkedEntry) :
    (processEntry opts git st e).warnings = st.warnings ++ entryWarnings opts e := by
  rcases hst : e.stat with msg | info
  · simp [processEntry, entryWarnings, hst]
  · by_cases hed : (opts.excludeEmpty && info.isDirectory : Bool)
    · rcases hrd : e.readdir with msg | children
      · simp [processEntry, entryWarnings, hst, hed, hrd, processAccepted]
      · cases children with
        | nil => simp [processEntry, entryWarnings, hst, hed, hrd]
        | cons c cs => simp [processEntry, entryWarnings, hst, hed, hrd, processAccepted]
    · simp [processEntry, entryWarnings, hst, hed, processAccepted]

/-- Overriding the warnings field commutes with one loop iteration. -/
theorem processEntry_warnings_override (opts : Options)
    (git : List (String × String)) (st : LoopState) (e : WalkedEntry)
    (w : List String) :
    processEntry opts git { st with warnings := w } e =
      { processEntry opts git st e with warnings := w ++ entryWarnings opts e } := by
  rcases hst : e.stat with msg | info
  · simp [processEntry, entryWarnings, hst]
  · by_cases hed : (opts.excludeEmpty && info.isDirectory : Bool)
    · rcases hrd : e.readdir with msg | children
      · simp [processEntry, entryWarnings, hst, hed, hrd, processAccepted]
      · cases children with
        | nil => simp [processEntry, entryWarnings, hst, hed, hrd]
        | cons c cs => simp [processEntry, entryWarnings, hst, hed, hrd, processAccepted]
    · simp [processEntry, entryWarnings, hst, hed, processAccepted]

/-- The whole loop: warnings decompose as the starting warnings followed by
each entry's own warnings, independent of the rest of the state. -/
theorem foldl_warnings_override (opts : Options) (git : List (String × String)) :
    ∀ (l : List WalkedEntry) (st : LoopState) (w : List String),
    l.foldl (processEntry opts git) { st with warnings := w } =
      { l.foldl (processEntry opts git) st with
          warnings := w ++ l.flatMap (entryWarnings opts) } := by
  intro l
  induction l with
  | nil => intro st w; simp
  | cons e t ih =>
    intro st w
    simp only [List.foldl_cons]
    rw [processEntry_warnings_override, ih (processEntry opts git st e)]
    have hs : { processEntry opts git st e with
        warnings := (processEntry opts git st e).warnings } =
        processEntry opts git st e := rfl
    rw [show (t.foldl (processEntry opts git) (processEntry opts git st e)) =
        (t.foldl (processEntry opts git)
          { processEntry opts git st e with
              warnings := (processEntry opts git st e).warnings }) from by rw [hs]]
    rw [ih (processEntry opts git st e)]
    simp [processEntry_warnings, List.flatMap_cons, List.append_assoc]

/-- The loop's warnings are the starting warnings plus each entry's own. -/
theorem foldl_warnings (opts : Options) (git : List (String × String))
    (l : List WalkedEntry) (st : LoopState) :
    (l.foldl (processEntry opts git) st).warnings =
      st.warnings ++ l.flatMap (entryWarnings opts) := by
  have h := foldl_warnings_override opts git l st st.warnings
  have hs : { st with warnings := st.warnings } = st := rfl
  rw [hs] at h
  rw [h]

/-! ## Statistics sum lemmas (for the aggregate invariants) -/

/-- Sum of the `count` components of a bucket object. -/
def sumCounts (l : List (String × Nat × Nat)) : Nat :=
  (l.map (fun x => x.2.1)).sum

/-- Sum of the `size` components of a bucket object. -/
def sumSizes (l : List (String × Nat × Nat)) : Nat :=
  (l.map (fun x => x.2.2)).sum

/-- `bumpBucket` adds exactly one to the total count. -/
theorem sumCounts_bumpBucket (m : List (String × Nat × Nat)) (k : String) (sz : Nat) :
    sumCounts (bumpBucket m k sz) = sumCounts m + 1 := by
  induction m with
  | nil => simp [bumpBucket, sumCounts]
  | cons b t ih =>
    rcases b with ⟨k2, c, s⟩
    by_cases h : k2 = k
    · simp [bumpBucket, h, sumCounts]
      omega
    · simp only [bumpBucket, if_neg h]
      simp only [sumCounts, List.map_cons, List.sum_cons] at ih ⊢
      omega

/-- `bumpBucket` adds exactly the entry's size to the total size. -/
theorem sumSizes_bumpBucket (m : List (String × Nat × Nat)) (k : String) (sz : Nat) :
    sumSizes (bumpBucket m k sz) = sumSizes m + sz := by
  induction m with
  | nil => simp [bumpBucket, sumSizes]
  | cons b t ih =>
    rcases b with ⟨k2, c, s⟩
    by_cases h : k2 = k
    · simp [bumpBucket, h, sumSizes]
      omega
    · simp only [bumpBucket, if_neg h]
      simp only [sumSizes, List.map_cons, List.sum_cons] at ih ⊢
      omega

/-- The statistics-consistency invariant of C10. -/
def statsConsistent (s : Stats) : Prop :=
  s.totalFiles = sumCounts s.byExtension ∧
  s.totalFiles = sumCounts s.byCategory ∧
  s.totalSize = sumSizes s.byExtension ∧
  s.totalSize = sumSizes s.byCategory

/-- `updateStats` preserves the consistency invariant. -/
theorem updateStats_consistent {s : Stats} (h : statsConsistent s)
    (file : String) (info : StatInfo) :
    statsConsistent (updateStats s file info) := by
  rcases h with ⟨h1, h2, h3, h4⟩
  by_cases hd : info.isDirectory
  · simp only [updateStats, if_pos hd, statsConsistent]
    exact ⟨h1, h2, h3, h4⟩
  · simp only [updateStats, if_neg hd, statsConsistent]
    refine ⟨?_, ?_, ?_, ?_⟩ <;>
      simp only [sumCounts_bumpBucket, sumSizes_bumpBucket] <;> omega

/-- Each loop iteration preserves the consistency invariant. -/
theorem processEntry_consistent {opts : Options} {git : List (String × String)}
    {st : LoopState} (h : statsConsistent st.stats) (e : WalkedEntry) :
    statsConsistent (processEntry opts git st e).stats := by
  rcases hst : e.stat with msg | info
  · simpa [processEntry, hst] using h
  · by_cases hed : (opts.excludeEmpty && info.isDirectory : Bool)
    · rcases hrd : e.readdir with msg | children
      · simpa [processEntry, hst, hed, hrd, processAccepted] using
          updateStats_consistent h e.path info
      · cases children with
        | nil => simpa [processEntry, hst, hed, hrd] using h
        | cons c cs =>
          simpa [processEntry, hst, hed, hrd, processAccepted] using
            updateStats_consistent h e.path info
    · simpa [processEntry, hst, hed, processAccepted] using
        updateStats_consistent h e.path info

/-- The whole loop preserves the consistency invariant. -/
theorem foldl_consistent (opts : Options) (git : List (String × String)) :
    ∀ (l : List WalkedEntry) (st : LoopState), statsConsistent st.stats →
    statsConsistent (l.foldl (processEntry opts git) st).stats := by
  intro l
  induction l with
  | nil => intro st h; simpa using h
  | cons e t ih =>
    intro st h
    simp only [List.foldl_cons]
    exact ih _ (processEntry_consistent h e)

/-! ## Largest-files invariant lemmas -/

/-- The output of the largest-files update is sorted descending by size. -/
theorem updateLargestFiles_pairwise (lf : List (String × Nat)) (file : String)
    (size : Nat) :
    (updateLargestFiles lf file size).Pairwise (fun x y => y.2 ≤ x.2) := by
  have h : (stableSort sizeDescLe (lf ++ [(file, size)])).Pairwise
      (fun x y => sizeDescLe x y = true) := by
    refine stableSort_pairwise ?_ ?_
    · intro x _ y _
      simp only [sizeDescLe, decide_eq_true_eq]
      omega
    · intro x _ y _ z _
      simp only [sizeDescLe, decide_eq_true_eq]
      omega
  have h2 := h.sublist (List.take_sublist 10 _)
  refine h2.imp ?_
  intro a b hab
  simpa [sizeDescLe] using hab

/-- The output of the largest-files update has at most ten elements. -/
theorem updateLargestFiles_length (lf : List (String × Nat)) (file : String)
    (size : Nat) : (updateLargestFiles lf file size).length ≤ 10 := by
  simp [updateLargestFiles]

/-- The output of the largest-files update is a sub-multiset of the old
sequence plus the new element. -/
theorem updateLargestFiles_le (lf : List (String × Nat)) (file : String)
    (size : Nat) :
    ((updateLargestFiles lf file size : List (String × Nat)) : Multiset (String × Nat)) ≤
      (lf : Multiset (String × Nat)) + {(file, size)} := by
  have h := take_stableSort_subperm sizeDescLe (lf ++ [(file, size)]) 10
  have h2 : ((updateLargestFiles lf file size : List (String × Nat)) :
      Multiset (String × Nat)) ≤ ((lf ++ [(file, size)] : List (String × Nat)) :
      Multiset (String × Nat)) := by
    exact_mod_cast h
  calc ((updateLargestFiles lf file size : List (String × Nat)) : Multiset (String × Nat))
      ≤ ((lf ++ [(file, size)] : List (String × Nat)) : Multiset (String × Nat)) := h2
    _ = (lf : Multiset (String × Nat)) + {(file, size)} := by
        rw [← Multiset.coe_singleton, ← Multiset.coe_add]

/-- What one loop iteration does to `largestFiles`, aligned with whether
the entry is an accepted file: either both are untouched, or the entry is
an accepted file and both record it. -/
theorem processEntry_largest (opts : Options) (git : List (String × String))
    (st : LoopState) (e : WalkedEntry) :
    ((processEntry opts git st e).stats.largestFiles = st.stats.largestFiles ∧
      acceptedFileEntries opts [e] = []) ∨
    (∃ info, e.stat = .ok info ∧ info.isDirectory = false ∧
      (processEntry opts git st e).stats.largestFiles =
        updateLargestFiles st.stats.largestFiles e.path info.size ∧
      acceptedFileEntries opts [e] = [(e.path, info.size)]) := by
  rcases hst : e.stat with msg | info
  · left
    constructor
    · simp [processEntry, hst]
    · simp [acceptedFileEntries, hst]
  · by_cases hd : info.isDirectory
    · left
      by_cases hex : opts.excludeEmpty
      · rcases hrd : e.readdir with msg | children
        · constructor
          · simp [processEntry, hst, hex, hd, hrd, processAccepted, updateStats]
          · simp [acceptedFileEntries, hst, hex, hd, hrd]
        · cases children with
          | nil =>
            constructor
            · simp [processEntry, hst, hex, hd, hrd]
            · simp [acceptedFileEntries, hst, hex, hd, hrd]
          | cons c cs =>
            constructor
            · simp [processEntry, hst, hex, hd, hrd, processAccepted, updateStats]
            · simp [acceptedFileEntries, hst, hex, hd, hrd]
      · constructor
        · simp [processEntry, hst, hex, processAccepted, updateStats, hd]
        · simp [acceptedFileEntries, hst, hex, hd]
    · right
      refine ⟨info, rfl, by simpa using hd, ?_, ?_⟩
      · by_cases hex : opts.excludeEmpty <;>
          simp [processEntry, hst, hex, hd, processAccepted, updateStats]
      · by_cases hex : opts.excludeEmpty <;>
          simp [acceptedFileEntries, hst, hex, hd]

/-- Splitting `acceptedFileEntries` at the head. -/
theorem acceptedFileEntries_cons (opts : Options) (e : WalkedEntry)
    (t : List WalkedEntry) :
    acceptedFileEntries opts (e :: t) =
      acceptedFileEntries opts [e] ++ acceptedFileEntries opts t := by
  simp only [acceptedFileEntries]
  rw [show e :: t = [e] ++ t from rfl, List.filterMap_append]

/-- The loop keeps `largestFiles` sorted descending and at most ten long. -/
theorem foldl_largest_sorted_len (opts : Options) (git : List (String × String)) :
    ∀ (l : List WalkedEntry) (st : LoopState),
    st.stats.largestFiles.Pairwise (fun x y => y.2 ≤ x.2) →
    st.stats.largestFiles.length ≤ 10 →
    ((l.foldl (processEntry opts git) st).stats.largestFiles.Pairwise
        (fun x y => y.2 ≤ x.2) ∧
      (l.foldl (processEntry opts git) st).stats.largestFiles.length ≤ 10) := by
  intro l
  induction l with
  | nil => intro st h1 h2; exact ⟨h1, h2⟩
  | cons e t ih =>
    intro st h1 h2
    simp only [List.foldl_cons]
    rcases processEntry_largest opts git st e with ⟨heq, _⟩ | ⟨info, _, _, heq, _⟩
    · exact ih _ (heq ▸ h1) (heq ▸ h2)
    · exact ih _ (heq ▸ updateLargestFiles_pairwise _ _ _)
        (heq ▸ updateLargestFiles_length _ _ _)

/-- The loop keeps `largestFiles` inside the accepted files (as a
multiset, plus whatever was already there). -/
theorem foldl_largest_le (opts : Options) (git : List (String × String)) :
    ∀ (l : List WalkedEntry) (st : LoopState),
    ((l.foldl (processEntry opts git) st).stats.largestFiles :
        Multiset (String × Nat)) ≤
      (st.stats.largestFiles : Multiset (String × Nat)) +
        (acceptedFileEntries opts l : Multiset (String × Nat)) := by
  intro l
  induction l with
  | nil => intro st; simp [acceptedFileEntries]
  | cons e t ih =>
    intro st
    simp only [List.foldl_cons]
    rcases processEntry_largest opts git st e with ⟨heq, hacc⟩ | ⟨info, _, _, heq, hacc⟩
    · refine (ih (processEntry opts git st e)).trans ?_
      rw [heq, acceptedFileEntries_cons, hacc]
      simp
    · refine (ih (processEntry opts git st e)).trans ?_
      rw [heq, acceptedFileEntries_cons, hacc]
      have h1 := updateLargestFiles_le st.stats.largestFiles e.path info.size
      calc ((updateLargestFiles st.stats.largestFiles e.path info.size :
              List (String × Nat)) : Multiset (String × Nat)) +
            (acceptedFileEntries opts t : Multiset (String × Nat))
          ≤ ((st.stats.largestFiles : Multiset (String × Nat)) +
              {(e.path, info.size)}) +
            (acceptedFileEntries opts t : Multiset (String × Nat)) := by
            exact add_le_add_right h1 _
        _ = (st.stats.largestFiles : Multiset (String × Nat)) +
            (([(e.path, info.size)] ++ acceptedFileEntries opts t :
              List (String × Nat)) : Multiset (String × Nat)) := by
            rw [← Multiset.coe_singleton, ← Multiset.coe_add]
            rw [add_assoc]

/-! ## Substring-occurrence machinery (for the diagnostics claims) -/

/-- `needle` occurs verbatim inside `haystack`. -/
def appearsIn (needle haystack : String) : Prop :=
  ∃ pre post, haystack = pre ++ needle ++ post

/-- Occurrence survives prefixing. -/
theorem appearsIn_append_left {n s : String} (t : String) (h : appearsIn n s) :
    appearsIn n (t ++ s) := by
  rcases h with ⟨p, q, rfl⟩
  exact ⟨t ++ p, q, by simp [String.append_assoc]⟩

/-- Occurrence survives suffixing. -/
theorem appearsIn_append_right {n s : String} (t : String) (h : appearsIn n s) :
    appearsIn n (s ++ t) := by
  rcases h with ⟨p, q, rfl⟩
  exact ⟨p, q ++ t, by simp [String.append_assoc]⟩

/-- A member of the list occurs in a `forEach`-appended block whose item
renderer brackets the item between fixed strings. -/
theorem appearsIn_concatStrs {x : String} {l : List String} (pre post : String)
    (h : x ∈ l) : appearsIn x (concatStrs (fun s => pre ++ s ++ post) l) := by
  induction l with
  | nil => cases h
  | cons a t ih =>
    simp only [concatStrs]
    rcases List.mem_cons.1 h with rfl | ht
    · exact ⟨pre, post ++ concatStrs (fun s => pre ++ s ++ post) t, by
        simp [String.append_assoc]⟩
    · exact appearsIn_append_left _ (ih ht)

/-- Every character of an occurring needle is a character of the
haystack. -/
theorem appearsIn_char_mem {n h : String} (ha : appearsIn n h) :
    ∀ c ∈ n.data, c ∈ h.data := by
  rcases ha with ⟨p, q, rfl⟩
  intro c hc
  simp only [String.data_append, List.mem_append]
  exact Or.inl (Or.inr hc)

/-! ## sortEntries characterization (the shared sort contract) -/

/-- Directory classification actually used by the renderers: the looked-up
entry's flag, `false` when the entry is absent. -/
def entryIsDir (fim : List (String × FileInfo)) (parentPath : String)
    (e : String × SMap) : Bool :=
  match mapGet fim (joinPath parentPath e.1) with
  | some fi => fi.isDirectory
  | none => false

/-- Whether the fully-qualified child path has a fileInfo entry. -/
def entryPresent (fim : List (String × FileInfo)) (parentPath : String)
    (e : String × SMap) : Bool :=
  (mapGet fim (joinPath parentPath e.1)).isSome

/-- `localeCompareInt ≤ 0` is exactly a non-`gt` comparison. -/
theorem localeCompareInt_le_iff (a b : String) :
    localeCompareInt a b ≤ 0 ↔ cmpStr a b ≠ Ordering.gt := by
  rcases h : cmpStr a b <;> simp [localeCompareInt, h]

/-- Totality of the name comparison. -/
theorem localeCompareInt_total (a b : String) :
    localeCompareInt a b ≤ 0 ∨ localeCompareInt b a ≤ 0 := by
  rcases h : cmpStr a b with hv | hv | hv
  · left; simp [localeCompareInt, h]
  · left; simp [localeCompareInt, h]
  · right
    have hs : cmpStr b a = Ordering.lt := by
      unfold cmpStr at h ⊢
      rw [cmpChars_swap, h]
      rfl
    simp [localeCompareInt, hs]

/-- Transitivity of the name comparison. -/
theorem localeCompareInt_le_trans {a b c : String}
    (h1 : localeCompareInt a b ≤ 0) (h2 : localeCompareInt b c ≤ 0) :
    localeCompareInt a c ≤ 0 := by
  rw [localeCompareInt_le_iff] at h1 h2 ⊢
  exact cmpChars_le_trans h1 h2

/-- The comparator when both siblings have entries: directories first,
then names. -/
theorem sortEntriesLe_present {fim : List (String × FileInfo)} {pp : String}
    {x y : String × SMap} {infoX infoY : FileInfo}
    (hx : mapGet fim (joinPath pp x.1) = some infoX)
    (hy : mapGet fim (joinPath pp y.1) = some infoY) :
    (sortEntriesLe fim pp x y = true ↔
      (infoX.isDirectory = true ∧ infoY.isDirectory = false) ∨
      (infoX.isDirectory = infoY.isDirectory ∧ localeCompareInt x.1 y.1 ≤ 0)) := by
  simp only [sortEntriesLe, sortEntriesCmp, hx, hy]
  rcases hdx : infoX.isDirectory <;> rcases hdy : infoY.isDirectory
  · simp [decide_eq_true_eq]
  · simp [decide_eq_true_eq]
  · simp [decide_eq_true_eq]
  · simp [decide_eq_true_eq]

/-- The comparator when either sibling's entry is absent: names only. -/
theorem sortEntriesLe_absent {fim : List (String × FileInfo)} {pp : String}
    {x y : String × SMap}
    (h : mapGet fim (joinPath pp x.1) = none ∨ mapGet fim (joinPath pp y.1) = none) :
    sortEntriesLe fim pp x y = (decide (localeCompareInt x.1 y.1 ≤ 0)) := by
  rcases h with h | h
  · simp only [sortEntriesLe, sortEntriesCmp, h]
  · simp only [sortEntriesLe, sortEntriesCmp, h]
    rcases hx : mapGet fim (joinPath pp x.1) with _ | v
    · rfl
    · rfl

/-- Sorting a two-element sibling group is one comparator test. -/
theorem sortEntries_pair (fim : List (String × FileInfo)) (pp : String)
    (x y : String × SMap) :
    sortEntries [x, y] fim pp =
      if sortEntriesLe fim pp x y = true then [x, y] else [y, x] := by
  simp only [sortEntries, stableSort, List.foldl_cons, List.foldl_nil, insertSorted]

/-- When every sibling has an entry, `sortEntries` output is pairwise in
the directories-first-then-names order. -/
theorem sortEntries_pairwise_present (entries : List (String × SMap))
    (fim : List (String × FileInfo)) (pp : String)
    (hp : ∀ e ∈ entries, entryPresent fim pp e = true) :
    (sortEntries entries fim pp).Pairwise (fun x y =>
      (entryIsDir fim pp x = true ∧ entryIsDir fim pp y = false) ∨
      (entryIsDir fim pp x = entryIsDir fim pp y ∧ localeCompareInt x.1 y.1 ≤ 0)) := by
  have hinfo : ∀ e ∈ entries, ∃ info, mapGet fim (joinPath pp e.1) = some info := by
    intro e he
    have h := hp e he
    simp only [entryPresent, Option.isSome_iff_exists] at h
    exact h
  have hle : (sortEntries entries fim pp).Pairwise
      (fun x y => sortEntriesLe fim pp x y = true) := by
    refine stableSort_pairwise ?_ ?_
    · intro x hx y hy
      rcases hinfo x hx with ⟨ix, hix⟩
      rcases hinfo y hy with ⟨iy, hiy⟩
      rw [sortEntriesLe_present hix hiy, sortEntriesLe_present hiy hix]
      rcases hdx : ix.isDirectory <;> rcases hdy : iy.isDirectory
      · rcases localeCompareInt_total x.1 y.1 with h | h
        · exact Or.inl (Or.inr ⟨rfl, h⟩)
        · exact Or.inr (Or.inr ⟨rfl, h⟩)
      · exact Or.inr (Or.inl ⟨rfl, rfl⟩)
      · exact Or.inl (Or.inl ⟨rfl, rfl⟩)
      · rcases localeCompareInt_total x.1 y.1 with h | h
        · exact Or.inl (Or.inr ⟨rfl, h⟩)
        · exact Or.inr (Or.inr ⟨rfl, h⟩)
    · intro x hx y hy z hz hxy hyz
      rcases hinfo x hx with ⟨ix, hix⟩
      rcases hinfo y hy with ⟨iy, hiy⟩
      rcases hinfo z hz with ⟨iz, hiz⟩
      rw [sortEntriesLe_present hix hiy] at hxy
      rw [sortEntriesLe_present hiy hiz] at hyz
      rw [sortEntriesLe_present hix hiz]
      rcases hxy with ⟨hdx, hdy⟩ | ⟨hde, hn1⟩
      · rcases hyz with ⟨hdy2, _⟩ | ⟨hde2, _⟩
        · rw [hdy] at hdy2; cases hdy2
        · exact Or.inl ⟨hdx, hde2 ▸ hdy⟩
      · rcases hyz with ⟨hdy2, hdz⟩ | ⟨hde2, hn2⟩
        · exact Or.inl ⟨hde ▸ hdy2, hdz⟩
        · exact Or.inr ⟨hde.trans hde2, localeCompareInt_le_trans hn1 hn2⟩
  have hmem : ∀ e ∈ sortEntries entries fim pp, e ∈ entries := by
    intro e he
    exact (stableSort_perm _ entries).mem_iff.1 he
  refine hle.imp_of_mem ?_
  intro a b ha hb hab
  rcases hinfo a (hmem a ha) with ⟨ia, hia⟩
  rcases hinfo b (hmem b hb) with ⟨ib, hib⟩
  rw [sortEntriesLe_present hia hib] at hab
  have hda : entryIsDir fim pp a = ia.isDirectory := by simp [entryIsDir, hia]
  have hdb : entryIsDir fim pp b = ib.isDirectory := by simp [entryIsDir, hib]
  rw [hda, hdb]
  exact hab

/-! ## Path-extraction lemmas (cross-format structure) -/

/-- The JSON structure's keys are the structure map's keys, in insertion
order. -/
theorem jsonStructureLoop_keys (opts : Options) (fim : List (String × FileInfo)) :
    ∀ (l : List (String × SMap)) (pp : String),
    (JSONFormatter.jsonStructureLoop opts fim l pp).map Prod.fst = l.map Prod.fst := by
  intro l
  induction l with
  | nil => intro pp; simp [JSONFormatter.jsonStructureLoop]
  | cons e rest ih =>
    intro pp
    rcases e with ⟨name, subMap⟩
    simp only [JSONFormatter.jsonStructureLoop, List.map_cons]
    rw [ih]

/-- `allPathsLoop` as a flatMap (so it maps permutations to
permutations). -/
theorem allPathsLoop_eq_flatMap :
    ∀ (l : List (String × SMap)) (pp : String),
    allPathsLoop l pp =
      l.flatMap (fun e => joinPath pp e.1 :: allPaths e.2 (joinPath pp e.1)) := by
  intro l
  induction l with
  | nil => intro pp; simp [allPathsLoop]
  | cons e rest ih =>
    intro pp
    rcases e with ⟨name, subMap⟩
    simp only [allPathsLoop, List.flatMap_cons]
    rw [ih]

/-- Flattening the JSON structure of a sibling list gives exactly its
insertion-order preorder paths — whatever the options (the JSON renderer
never truncates). -/
theorem flatten_jsonStructureLoop (opts : Options) (fim : List (String × FileInfo)) :
    ∀ (n : Nat) (l : List (String × SMap)) (pp : String), sizeOf l ≤ n →
    flattenJSONPaths (JSONFormatter.jsonStructureLoop opts fim l pp) pp =
      allPathsLoop l pp := by
  intro n
  induction n using Nat.strong_induction_on with
  | _ n ih =>
    intro l pp hle
    cases l with
    | nil => simp [JSONFormatter.jsonStructureLoop, flattenJSONPaths, allPathsLoop]
    | cons hd rest =>
      rcases hd with ⟨name, subMap⟩
      have hsz : 1 ≤ sizeOf subMap ∧
          sizeOf subMap.entries + 1 = sizeOf subMap ∧
          sizeOf subMap + sizeOf rest + 2 ≤ sizeOf ((name, subMap) :: rest) := by
        cases subMap with
        | mk es =>
          simp only [SMap.entries, SMap.mk.sizeOf_spec, List.cons.sizeOf_spec,
            Prod.mk.sizeOf_spec]
          omega
      have hcons : sizeOf ((name, subMap) :: rest) ≤ n := hle
      have hn1 : n - 1 < n := by omega
      have hrest : sizeOf rest ≤ n - 1 := by omega
      have hsub : sizeOf subMap.entries ≤ n - 1 := by omega
      simp only [JSONFormatter.jsonStructureLoop]
      by_cases hs : subMap.size > 0
      · rcases hfi : mapGet fim (joinPath pp name) with _ | fi <;>
        · simp only [hfi, hs, if_true, if_pos hs, flattenJSONPaths, allPathsLoop,
            JSONFormatter.generateJSONStructure, allPaths]
          rw [ih (n - 1) hn1 _ _ hsub, ih (n - 1) hn1 _ _ hrest]
          simp
      · have hes : subMap.entries = [] := by
          have : subMap.entries.length = 0 := by
            simp only [SMap.size] at hs
            omega
          exact List.length_eq_zero.1 this
        rcases hfi : mapGet fim (joinPath pp name) with _ | fi <;>
        · simp only [hfi, hs, if_false, if_neg hs, flattenJSONPaths, allPathsLoop,
            allPaths, hes]
          rw [ih (n - 1) hn1 _ _ hrest]
          simp [allPathsLoop]

/-- With unbounded depth, the simple text tree prints exactly the structure
map's paths (as a permutation: the tree re-orders siblings by the sort
contract, nothing is dropped). -/
theorem simpleTreePathsLoop_perm (opts : Options) (fim : List (String × FileInfo))
    (hinf : opts.maxDepth = Depth.infinity) :
    ∀ (n : Nat) (l : List (String × SMap)) (pp : String), sizeOf l ≤ n →
    (simpleTreePathsLoop opts fim l pp).Perm (allPathsLoop l pp) := by
  intro n
  induction n using Nat.strong_induction_on with
  | _ n ih =>
    intro l pp hle
    cases l with
    | nil => simp [simpleTreePathsLoop, allPathsLoop]
    | cons hd rest =>
      rcases hd with ⟨name, subMap⟩
      have hsz : 1 ≤ sizeOf subMap ∧
          sizeOf subMap.entries + 1 = sizeOf subMap ∧
          sizeOf subMap + sizeOf rest + 2 ≤ sizeOf ((name, subMap) :: rest) := by
        cases subMap with
        | mk es =>
          simp only [SMap.entries, SMap.mk.sizeOf_spec, List.cons.sizeOf_spec,
            Prod.mk.sizeOf_spec]
          omega
      have hcons : sizeOf ((name, subMap) :: rest) ≤ n := hle
      have hn1 : n - 1 < n := by omega
      have hrest : sizeOf rest ≤ n - 1 := by omega
      have hsub : sizeOf subMap.entries ≤ n - 1 := by omega
      simp only [simpleTreePathsLoop, allPathsLoop, hinf, ltDepth, if_true]
      by_cases hs : subMap.size > 0
      · simp only [hs, if_pos hs, if_true]
        refine List.Perm.append ?_ (ih (n - 1) hn1 _ _ hrest)
        refine List.Perm.cons _ ?_
        -- node level: unfold the node, sort permutes the siblings
        simp only [simpleTreePaths, allPaths]
        have hperm : (sortEntries subMap.entries fim (joinPath pp name)).Perm
            subMap.entries := stableSort_perm _ _
        have hsz2 : sizeOf (sortEntries subMap.entries fim (joinPath pp name)) ≤ n - 1 := by
          rw [sortEntries_sizeOf]
          omega
        refine (ih (n - 1) hn1 _ _ hsz2).trans ?_
        rw [allPathsLoop_eq_flatMap, allPathsLoop_eq_flatMap]
        exact List.Perm.flatMap_right _ hperm
      · have hes : subMap.entries = [] := by
          have : subMap.entries.length = 0 := by
            simp only [SMap.size] at hs
            omega
          exact List.length_eq_zero.1 this
        simp only [hs, if_neg hs, allPaths, hes, allPathsLoop, if_false]
        refine List.Perm.append ?_ (ih (n - 1) hn1 _ _ hrest)
        simp

/-- Node-level version: with unbounded depth the simple tree's paths
permute the structure map's paths. -/
theorem simpleTreePaths_perm (opts : Options) (fim : List (String × FileInfo))
    (hinf : opts.maxDepth = Depth.infinity) (m : SMap) (pp : String) :
    (simpleTreePaths opts fim m pp).Perm (allPaths m pp) := by
  simp only [simpleTreePaths, allPaths]
  have hperm : (sortEntries m.entries fim pp).Perm m.entries := stableSort_perm _ _
  refine (simpleTreePathsLoop_perm opts fim hinf
    (sizeOf (sortEntries m.entries fim pp)) _ pp le_rfl).trans ?_
  rw [allPathsLoop_eq_flatMap, allPathsLoop_eq_flatMap]
  exact List.Perm.flatMap_right _ hperm

/-- With no display flag set and no symlink, the detailed tree adds no
extras. -/
theorem textExtras_empty {opts : Options} (hsz : opts.showSizes = false)
    (hts : opts.showTimestamps = false) (hpm : opts.showPermissions = false)
    (hgs : opts.showGitStatus = false) (fi : Option FileInfo)
    (hsym : ∀ f, fi = some f → f.isSymlink = false) :
    textExtras opts fi = [] := by
  cases fi with
  | none => rfl
  | some f => simp [textExtras, hsz, hts, hpm, hgs, hsym f rfl]

/-- With no display flag set and no symlink, the Markdown tree adds no
extras. -/
theorem mdExtras_empty {opts : Options} (hsz : opts.showSizes = false)
    (hts : opts.showTimestamps = false) (hgs : opts.showGitStatus = false)
    (fi : Option FileInfo) (hsym : ∀ f, fi = some f → f.isSymlink = false) :
    mdExtras opts fi = [] := by
  cases fi with
  | none => rfl
  | some f => simp [mdExtras, hsz, hts, hgs, hsym f rfl]

/-- Sorting a single sibling changes nothing. -/
theorem sortEntries_single (fim : List (String × FileInfo)) (pp : String)
    (x : String × SMap) : sortEntries [x] fim pp = [x] := by
  simp [sortEntries, stableSort, insertSorted]

/-! ## The claims -/

/-- C6: at every point of the statistics-update pass (the input list of
walked entries is arbitrary, so every prefix of a run is an instance),
`largestFiles` is sorted descending by size, has at most 10 elements, and
its elements — `{path, size}` pairs — are drawn from the accepted file
entries (as a sub-multiset: `largestFiles` is ordered by size, not walker
order, so containment is multiset containment); directories never appear
in it, since `acceptedFileEntries` contains no directory. -/
theorem c6_largestFiles_invariant (opts : Options) (git : List (String × String))
    (initErrors initWarnings : List String) (filteredFiles : List WalkedEntry) :
    ((analyze opts git initErrors initWarnings filteredFiles).stats.largestFiles.Pairwise
        (fun x y => y.2 ≤ x.2)) ∧
    (analyze opts git initErrors initWarnings filteredFiles).stats.largestFiles.length ≤ 10 ∧
    ((analyze opts git initErrors initWarnings filteredFiles).stats.largestFiles :
        Multiset (String × Nat)) ≤
      (acceptedFileEntries opts filteredFiles : Multiset (String × Nat)) := by
  have hst : (analyze opts git initErrors initWarnings filteredFiles).stats =
      (filteredFiles.foldl (processEntry opts git)
        (initialLoopState initErrors initWarnings)).stats := rfl
  have hbase1 : (initialLoopState initErrors initWarnings).stats.largestFiles = [] := rfl
  have hs := foldl_largest_sorted_len opts git filteredFiles
    (initialLoopState initErrors initWarnings)
    (by rw [hbase1]; exact List.Pairwise.nil) (by rw [hbase1]; simp)
  have hm := foldl_largest_le opts git filteredFiles
    (initialLoopState initErrors initWarnings)
  rw [hbase1] at hm
  refine ⟨hst ▸ hs.1, hst ▸ hs.2, ?_⟩
  rw [hst]
  simpa using hm

/-- C7: a walked path whose stat fails gets exactly one warning of the form
`Could not stat file <path>: <reason>` appended, and is skipped entirely:
the iteration changes nothing but the warnings list (first conjunct, a
record equality), and at the whole-run level the statistics, structure map
and entry map are the same as if the path had not been walked at all,
while the warnings list gains exactly that one entry in walker order
(second conjunct). -/
theorem c7_stat_failure_skips (opts : Options) (git : List (String × String))
    (st : LoopState) (e : WalkedEntry) (msg : String)
    (h : e.stat = Except.error msg) :
    (processEntry opts git st e =
      { st with warnings :=
          st.warnings ++ ["Could not stat file " ++ e.path ++ ": " ++ msg] }) ∧
    ∀ initErrors initWarnings l1 l2,
      ((analyze opts git initErrors initWarnings (l1 ++ e :: l2)).stats =
        (analyze opts git initErrors initWarnings (l1 ++ l2)).stats) ∧
      ((analyze opts git initErrors initWarnings (l1 ++ e :: l2)).structureMap =
        (analyze opts git initErrors initWarnings (l1 ++ l2)).structureMap) ∧
      ((analyze opts git initErrors initWarnings (l1 ++ e :: l2)).fileInfoMap =
        (analyze opts git initErrors initWarnings (l1 ++ l2)).fileInfoMap) ∧
      (analyzeWarnings opts git initErrors initWarnings (l1 ++ e :: l2) =
        initWarnings ++ l1.flatMap (entryWarnings opts) ++
          ("Could not stat file " ++ e.path ++ ": " ++ msg) ::
            l2.flatMap (entryWarnings opts)) := by
  refine ⟨processEntry_stat_error h, ?_⟩
  intro initErrors initWarnings l1 l2
  set st0 := initialLoopState initErrors initWarnings with hst0
  set st1 := l1.foldl (processEntry opts git) st0 with hst1
  have hsplit : (l1 ++ e :: l2).foldl (processEntry opts git) st0 =
      l2.foldl (processEntry opts git) (processEntry opts git st1 e) := by
    rw [List.foldl_append]
    rfl
  have hpe : processEntry opts git st1 e =
      { st1 with warnings :=
          st1.warnings ++ ["Could not stat file " ++ e.path ++ ": " ++ msg] } :=
    processEntry_stat_error h
  have hover := foldl_warnings_override opts git l2 st1
    (st1.warnings ++ ["Could not stat file " ++ e.path ++ ": " ++ msg])
  have hsplit2 : (l1 ++ l2).foldl (processEntry opts git) st0 =
      l2.foldl (processEntry opts git) st1 := by
    rw [List.foldl_append]
  have hw1 : st1.warnings = initWarnings ++ l1.flatMap (entryWarnings opts) := by
    rw [hst1]
    exact foldl_warnings opts git l1 st0
  refine ⟨?_, ?_, ?_, ?_⟩
  · show ((l1 ++ e :: l2).foldl (processEntry opts git) st0).stats =
      ((l1 ++ l2).foldl (processEntry opts git) st0).stats
    rw [hsplit, hsplit2, hpe, hover]
  · show ((l1 ++ e :: l2).foldl (processEntry opts git) st0).structureMap =
      ((l1 ++ l2).foldl (processEntry opts git) st0).structureMap
    rw [hsplit, hsplit2, hpe, hover]
  · show ((l1 ++ e :: l2).foldl (processEntry opts git) st0).fileInfoMap =
      ((l1 ++ l2).foldl (processEntry opts git) st0).fileInfoMap
    rw [hsplit, hsplit2, hpe, hover]
  · show ((l1 ++ e :: l2).foldl (processEntry opts git) st0).warnings = _
    rw [hsplit, hpe, hover]
    simp only [foldl_warnings opts git l2 st1, hw1]
    simp [List.append_assoc]

/-- C7 witness: the theorem applied at a concrete failed stat. -/
theorem c7_stat_failure_skips_witness :
    (processEntry {} [] (initialLoopState [] [])
        ⟨"bad.txt", Except.error "EACCES", Except.ok []⟩ =
      { initialLoopState [] [] with warnings :=
          [] ++ ["Could not stat file " ++ "bad.txt" ++ ": " ++ "EACCES"] }) ∧
    ∀ initErrors initWarnings l1 l2,
      ((analyze {} [] initErrors initWarnings
          (l1 ++ ⟨"bad.txt", Except.error "EACCES", Except.ok []⟩ :: l2)).stats =
        (analyze {} [] initErrors initWarnings (l1 ++ l2)).stats) ∧
      ((analyze {} [] initErrors initWarnings
          (l1 ++ ⟨"bad.txt", Except.error "EACCES", Except.ok []⟩ :: l2)).structureMap =
        (analyze {} [] initErrors initWarnings (l1 ++ l2)).structureMap) ∧
      ((analyze {} [] initErrors initWarnings
          (l1 ++ ⟨"bad.txt", Except.error "EACCES", Except.ok []⟩ :: l2)).fileInfoMap =
        (analyze {} [] initErrors initWarnings (l1 ++ l2)).fileInfoMap) ∧
      (analyzeWarnings {} [] initErrors initWarnings
          (l1 ++ ⟨"bad.txt", Except.error "EACCES", Except.ok []⟩ :: l2) =
        initWarnings ++ l1.flatMap (entryWarnings {}) ++
          ("Could not stat file " ++ "bad.txt" ++ ": " ++ "EACCES") ::
            l2.flatMap (entryWarnings {})) :=
  c7_stat_failure_skips {} [] (initialLoopState [] [])
    ⟨"bad.txt", Except.error "EACCES", Except.ok []⟩ "EACCES" rfl

/-- C10: after processing any sequence of walked entries, the statistics
are mutually consistent sums — `totalFiles` equals the total of the
`byExtension` counts and of the `byCategory` counts, `totalSize` the total
of the respective sizes — and an accepted directory entry updates the
statistics record in `totalDirs` alone. -/
theorem c10_stats_sums (opts : Options) (git : List (String × String))
    (initErrors initWarnings : List String) (filteredFiles : List WalkedEntry) :
    (let s := (analyze opts git initErrors initWarnings filteredFiles).stats
     s.totalFiles = sumCounts s.byExtension ∧
     s.totalFiles = sumCounts s.byCategory ∧
     s.totalSize = sumSizes s.byExtension ∧
     s.totalSize = sumSizes s.byCategory) ∧
    (∀ (s : Stats) (file : String) (info : StatInfo), info.isDirectory = true →
      updateStats s file info = { s with totalDirs := s.totalDirs + 1 }) := by
  constructor
  · have hbase : statsConsistent (initialLoopState initErrors initWarnings).stats := by
      refine ⟨rfl, rfl, rfl, rfl⟩
    exact foldl_consistent opts git filteredFiles _ hbase
  · intro s file info hd
    simp [updateStats, hd]

/-- C9 counterexample: the claim says only a POSITIVE integer depth yields
a finite maxDepth, but a configured depth of `-1` is truthy in the `||`
chain and yields the finite maxDepth `-1`. -/
theorem c9_negative_depth_finite :
    applyConfigurationMaxDepth (some (-1)) none = Depth.num (-1) ∧
    Depth.num (-1) ≠ Depth.infinity := by
  constructor
  · rfl
  · decide

/-- C9 (amended): in `applyConfiguration`, the merged `maxDepth` is
`Infinity` exactly when both the CLI depth and the config depth are falsy
(absent or `0`) — so an explicitly requested depth of 0 behaves as
unbounded — and any NONZERO integer depth (positive or negative, the CLI
winning over the config) yields that finite depth. -/
theorem c9_falsy_depth_unbounded (o c : Option Int) :
    (applyConfigurationMaxDepth o c = Depth.infinity ↔
      (o = none ∨ o = some 0) ∧ (c = none ∨ c = some 0)) ∧
    (∀ n : Int, n ≠ 0 → applyConfigurationMaxDepth (some n) c = Depth.num n) ∧
    (applyConfigurationMaxDepth (some 0) c = applyConfigurationMaxDepth none c) := by
  refine ⟨?_, ?_, ?_⟩
  · constructor
    · intro h
      rcases o with _ | n
      · rcases c with _ | m
        · exact ⟨Or.inl rfl, Or.inl rfl⟩
        · by_cases hm : m = 0
          · exact ⟨Or.inl rfl, Or.inr (by rw [hm])⟩
          · simp [applyConfigurationMaxDepth, jsOrDepth, hm] at h
      · by_cases hn : n = 0
        · subst hn
          rcases c with _ | m
          · exact ⟨Or.inr rfl, Or.inl rfl⟩
          · by_cases hm : m = 0
            · exact ⟨Or.inr rfl, Or.inr (by rw [hm])⟩
            · simp [applyConfigurationMaxDepth, jsOrDepth, hm] at h
        · simp [applyConfigurationMaxDepth, jsOrDepth, hn] at h
    · rintro ⟨ho, hc⟩
      rcases ho with rfl | rfl <;> rcases hc with rfl | rfl <;>
        simp [applyConfigurationMaxDepth, jsOrDepth]
  · intro n hn
    simp [applyConfigurationMaxDepth, jsOrDepth, hn]
  · simp [applyConfigurationMaxDepth, jsOrDepth]

/-- C5 counterexample: with `excludeEmpty` on, an empty directory (here
`logs`, whose readdir returns `[]`) is indeed dropped from the structure
map, the entry map and the statistics — but it is NOT absent from the
result's files list (`analyze` returns the pre-loop `filteredFiles`
unchanged), contradicting the claim's "absent from the analysis result's
filteredPaths list". -/
theorem c5_empty_dir_still_in_files :
    (analyze { excludeEmpty := true } [] [] []
        [⟨"logs", Except.ok ⟨0, true, false, "2024-01-01T00:00:00.000Z", 493⟩,
          Except.ok []⟩]).files = ["logs"] ∧
    (analyze { excludeEmpty := true } [] [] []
        [⟨"logs", Except.ok ⟨0, true, false, "2024-01-01T00:00:00.000Z", 493⟩,
          Except.ok []⟩]).structureMap.entries.length = 0 ∧
    (analyze { excludeEmpty := true } [] [] []
        [⟨"logs", Except.ok ⟨0, true, false, "2024-01-01T00:00:00.000Z", 493⟩,
          Except.ok []⟩]).fileInfoMap = [] ∧
    (analyze { excludeEmpty := true } [] [] []
        [⟨"logs", Except.ok ⟨0, true, false, "2024-01-01T00:00:00.000Z", 493⟩,
          Except.ok []⟩]).stats.totalDirs = 0 := by
  refine ⟨rfl, rfl, rfl, rfl⟩

/-- C5 (amended): with `excludeEmpty` enabled, a directory whose child
listing is empty at stat-time contributes nothing to the statistics, the
structure tree, the entry map or the warnings — the run is identical to
one that never walked it — but its path DOES remain in the result's
`files` list; and when the child listing itself fails, a warning is
recorded and the directory is processed, not skipped. -/
theorem c5_excludeEmpty_amended (opts : Options) (git : List (String × String))
    (initErrors initWarnings : List String) (l1 l2 : List WalkedEntry)
    (e : WalkedEntry) (info : StatInfo)
    (hex : opts.excludeEmpty = true) (hst : e.stat = Except.ok info)
    (hdir : info.isDirectory = true) (hrd : e.readdir = Except.ok []) :
    ((analyze opts git initErrors initWarnings (l1 ++ e :: l2)).stats =
      (analyze opts git initErrors initWarnings (l1 ++ l2)).stats) ∧
    ((analyze opts git initErrors initWarnings (l1 ++ e :: l2)).structureMap =
      (analyze opts git initErrors initWarnings (l1 ++ l2)).structureMap) ∧
    ((analyze opts git initErrors initWarnings (l1 ++ e :: l2)).fileInfoMap =
      (analyze opts git initErrors initWarnings (l1 ++ l2)).fileInfoMap) ∧
    (analyzeWarnings opts git initErrors initWarnings (l1 ++ e :: l2) =
      analyzeWarnings opts git initErrors initWarnings (l1 ++ l2)) ∧
    ((analyze opts git initErrors initWarnings (l1 ++ e :: l2)).files =
      l1.map (fun x => x.path) ++ e.path :: l2.map (fun x => x.path)) ∧
    (∀ (st : LoopState) (e2 : WalkedEntry) (info2 : StatInfo) (msg : String),
      e2.stat = Except.ok info2 → info2.isDirectory = true →
      e2.readdir = Except.error msg →
      processEntry opts git st e2 =
        processAccepted git
          { st with warnings := st.warnings ++
              ["Could not read directory " ++ e2.path ++ ": " ++ msg] }
          e2 info2) := by
  have hskip : ∀ st, processEntry opts git st e = st := by
    intro st
    exact processEntry_empty_dir hst hex hdir hrd
  set st0 := initialLoopState initErrors initWarnings with hst0
  have hsplit : (l1 ++ e :: l2).foldl (processEntry opts git) st0 =
      (l1 ++ l2).foldl (processEntry opts git) st0 := by
    rw [List.foldl_append, List.foldl_append]
    show l2.foldl (processEntry opts git)
        (processEntry opts git (l1.foldl (processEntry opts git) st0) e) = _
    rw [hskip]
  refine ⟨?_, ?_, ?_, ?_, ?_, ?_⟩
  · show ((l1 ++ e :: l2).foldl (processEntry opts git) st0).stats = _
    rw [hsplit]; rfl
  · show ((l1 ++ e :: l2).foldl (processEntry opts git) st0).structureMap = _
    rw [hsplit]; rfl
  · show ((l1 ++ e :: l2).foldl (processEntry opts git) st0).fileInfoMap = _
    rw [hsplit]; rfl
  · show ((l1 ++ e :: l2).foldl (processEntry opts git) st0).warnings = _
    rw [hsplit]; rfl
  · simp [analyze]
  · intro st e2 info2 msg h1 h2 h3
    exact processEntry_readdir_error h1 hex h2 h3

/-- C5 witness: the amended theorem at the concrete empty `logs`
directory. -/
theorem c5_excludeEmpty_amended_witness :
    (analyze { excludeEmpty := true } [] [] []
        ([] ++ ⟨"logs", Except.ok ⟨0, true, false, "2024-01-01T00:00:00.000Z", 493⟩,
          Except.ok []⟩ :: [])).stats =
      (analyze { excludeEmpty := true } [] [] [] ([] ++ [])).stats :=
  (c5_excludeEmpty_amended { excludeEmpty := true } [] [] [] [] []
    ⟨"logs", Except.ok ⟨0, true, false, "2024-01-01T00:00:00.000Z", 493⟩, Except.ok []⟩
    ⟨0, true, false, "2024-01-01T00:00:00.000Z", 493⟩ rfl rfl rfl rfl).1

/-- C4 counterexample: sibling `z` HAS a directory Entry and sibling `a`
has none, yet `sortEntries` lists `a` before `z` — the comparator only
applies the directory rule when BOTH entries are present, so an absent
Entry is not "classified as a file" against a present directory; the pair
falls through to the name comparison. -/
theorem c4_absent_entry_not_file_classified :
    (sortEntries [("z", SMap.mk []), ("a", SMap.mk [])]
        [("z", ⟨"z", 0, true, "2024-01-01T00:00:00.000Z", 493, false, none⟩)]
        "").map Prod.fst = ["a", "z"] ∧
    entryIsDir [("z", ⟨"z", 0, true, "2024-01-01T00:00:00.000Z", 493, false, none⟩)]
      "" ("z", SMap.mk []) = true ∧
    mapGet [("z", ⟨"z", 0, true, "2024-01-01T00:00:00.000Z", 493, false, none⟩)]
      (joinPath "" "a") = (none : Option FileInfo) := by
  refine ⟨rfl, rfl, rfl⟩

/-- C4 (amended): `sortEntries` permutes its sibling group; when EVERY
sibling's fully-qualified path has an Entry, directories are ordered
before files and same-classification siblings by the (locale-modelled)
name comparison; a pair in which either Entry is absent is ordered purely
by name comparison — the directory rule is skipped, absent entries get no
file classification against a present directory. -/
theorem c4_sortEntries_contract (entries : List (String × SMap))
    (fim : List (String × FileInfo)) (pp : String) :
    ((sortEntries entries fim pp).Perm entries) ∧
    ((∀ e ∈ entries, entryPresent fim pp e = true) →
      (sortEntries entries fim pp).Pairwise (fun x y =>
        (entryIsDir fim pp x = true ∧ entryIsDir fim pp y = false) ∨
        (entryIsDir fim pp x = entryIsDir fim pp y ∧ localeCompareInt x.1 y.1 ≤ 0))) ∧
    (∀ x y : String × SMap,
      (mapGet fim (joinPath pp x.1) = none ∨ mapGet fim (joinPath pp y.1) = none) →
      sortEntries [x, y] fim pp =
        if localeCompareInt x.1 y.1 ≤ 0 then [x, y] else [y, x]) := by
  refine ⟨stableSort_perm _ _, ?_, ?_⟩
  · intro hp
    exact sortEntries_pairwise_present entries fim pp hp
  · intro x y h
    rw [sortEntries_pair, sortEntriesLe_absent h]
    by_cases hle : localeCompareInt x.1 y.1 ≤ 0 <;> simp [hle]

/-- C4 witness: the spec's two examples, computed concretely — siblings
`{z (file), a (directory)}` (both with entries) list `a` first although
`z` sorts later alphabetically gives way to the directory; siblings
`{b.txt, a.txt}` (both files) list `a.txt` first. -/
theorem c4_sortEntries_contract_witness :
    sortEntries [("z", SMap.mk []), ("a", SMap.mk [])]
        [("z", ⟨"z", 3, false, "2024-01-01T00:00:00.000Z", 420, false, none⟩),
         ("a", ⟨"a", 0, true, "2024-01-01T00:00:00.000Z", 493, false, none⟩)] "" =
      [("a", SMap.mk []), ("z", SMap.mk [])] ∧
    sortEntries [("b.txt", SMap.mk []), ("a.txt", SMap.mk [])]
        [("b.txt", ⟨"b.txt", 1, false, "2024-01-01T00:00:00.000Z", 420, false, none⟩),
         ("a.txt", ⟨"a.txt", 2, false, "2024-01-01T00:00:00.000Z", 420, false, none⟩)] "" =
      [("a.txt", SMap.mk []), ("b.txt", SMap.mk [])] := by
  refine ⟨rfl, rfl⟩

/-! ## Category table facts (for C8) -/

/-- Category names are unique in the table. -/
theorem fileCategories_name_unique {c1 c2 : String × List String}
    (h1 : c1 ∈ FILE_CATEGORIES) (h2 : c2 ∈ FILE_CATEGORIES) (h : c1.1 = c2.1) :
    c1 = c2 := by
  fin_cases h1 <;> fin_cases h2 <;> first
    | rfl
    | (exfalso; revert h; decide)

/-- The extension lists of distinct categories are disjoint. -/
theorem fileCategories_disjoint {c1 c2 : String × List String} {s : String}
    (h1 : c1 ∈ FILE_CATEGORIES) (h2 : c2 ∈ FILE_CATEGORIES)
    (hs1 : s ∈ c1.2) (hs2 : s ∈ c2.2) : c1 = c2 := by
  fin_cases h1 <;> fin_cases h2 <;> first
    | rfl
    | (exfalso; fin_cases hs1 <;> revert hs2 <;> decide)

/-- No table category is named `other`. -/
theorem fileCategories_not_other {c : String × List String}
    (h : c ∈ FILE_CATEGORIES) : c.1 ≠ "other" := by
  fin_cases h <;> decide

/-- C8: the extension-to-category mapping is a pure function of the
extension string (determinism is definitional); its value is a table
category exactly when the lowercased extension occurs in that category's
list (case-insensitivity is this lowercasing against the all-lowercase
table), and `other` exactly when no list contains it. -/
theorem c8_extension_category (ext : String) :
    (∀ cat exts, (cat, exts) ∈ FILE_CATEGORIES →
      (getFileCategory ext = cat ↔ toLowerCase ext ∈ exts)) ∧
    (getFileCategory ext = "other" ↔
      ∀ cat exts, (cat, exts) ∈ FILE_CATEGORIES → toLowerCase ext ∉ exts) := by
  constructor
  · intro cat exts hmem
    constructor
    · intro hval
      unfold getFileCategory at hval
      split at hval
      · rename_i c hf
        have hc := List.mem_of_find?_eq_some hf
        have hpc := List.find?_some hf
        have hceq : c = (cat, exts) :=
          fileCategories_name_unique hc hmem hval
        rw [hceq] at hpc
        simpa using hpc
      · rename_i hf
        exact absurd hval.symm (fileCategories_not_other hmem)
    · intro hL
      have hsome : (FILE_CATEGORIES.find?
          (fun c => decide (toLowerCase ext ∈ c.2))).isSome := by
        rw [List.find?_isSome]
        exact ⟨(cat, exts), hmem, by simpa using hL⟩
      rcases Option.isSome_iff_exists.1 hsome with ⟨c, hf⟩
      have hc := List.mem_of_find?_eq_some hf
      have hpc := List.find?_some hf
      have hceq : c = (cat, exts) := by
        refine fileCategories_disjoint hc hmem ?_ hL
        simpa using hpc
      unfold getFileCategory
      rw [hf, hceq]
  · constructor
    · intro hval cat exts hmem hL
      have hsome : (FILE_CATEGORIES.find?
          (fun c => decide (toLowerCase ext ∈ c.2))).isSome := by
        rw [List.find?_isSome]
        exact ⟨(cat, exts), hmem, by simpa using hL⟩
      rcases Option.isSome_iff_exists.1 hsome with ⟨c, hf⟩
      have hc := List.mem_of_find?_eq_some hf
      have : getFileCategory ext = c.1 := by
        unfold getFileCategory
        rw [hf]
      rw [hval] at this
      exact fileCategories_not_other hc this.symm
    · intro hall
      have hnone : FILE_CATEGORIES.find?
          (fun c => decide (toLowerCase ext ∈ c.2)) = none := by
        rw [List.find?_eq_none]
        intro x hx
        simpa using hall x.1 x.2 hx
      unfold getFileCategory
      rw [hnone]

/-- C8 witness: the mapping applied at a concrete mixed-case extension. -/
theorem c8_extension_category_witness :
    (".JS", [".js", ".jsx", ".ts", ".tsx", ".py", ".java", ".cpp", ".c", ".h",
      ".go", ".rs", ".php", ".rb", ".swift", ".kt"]).1 = ".JS" ∧
    (getFileCategory ".JS" = "code" ↔ toLowerCase ".JS" ∈
      [".js", ".jsx", ".ts", ".tsx", ".py", ".java", ".cpp", ".c", ".h",
       ".go", ".rs", ".php", ".rb", ".swift", ".kt"]) :=
  ⟨rfl, (c8_extension_category ".JS").1 "code"
    [".js", ".jsx", ".ts", ".tsx", ".py", ".java", ".cpp", ".c", ".h",
     ".go", ".rs", ".php", ".rb", ".swift", ".kt"] (by decide)⟩

/-- C3 counterexample: for the tree inserted as `b.txt` then `a.txt` (two
files, both with entries), the JSON structure's sibling order is the
INSERTION order `b.txt, a.txt`, while the shared sort contract
(`sortEntries`) orders them `a.txt, b.txt` — the JSON renderer's sibling
ordering is not determined by `sortEntries`. -/
theorem c3_json_uses_insertion_order :
    (JSONFormatter.generateJSONStructure {}
        [("b.txt", ⟨"b.txt", 1, false, "2024-01-01T00:00:00.000Z", 420, false, none⟩),
         ("a.txt", ⟨"a.txt", 2, false, "2024-01-01T00:00:00.000Z", 420, false, none⟩)]
        (buildStructureMap ["b.txt", "a.txt"]) "").map Prod.fst = ["b.txt", "a.txt"] ∧
    (sortEntries (buildStructureMap ["b.txt", "a.txt"]).entries
        [("b.txt", ⟨"b.txt", 1, false, "2024-01-01T00:00:00.000Z", 420, false, none⟩),
         ("a.txt", ⟨"a.txt", 2, false, "2024-01-01T00:00:00.000Z", 420, false, none⟩)]
        "").map Prod.fst = ["a.txt", "b.txt"] ∧
    (["b.txt", "a.txt"] : List String) ≠ ["a.txt", "b.txt"] := by
  refine ⟨?_, ?_, ?_⟩
  · simp only [JSONFormatter.generateJSONStructure]
    rw [jsonStructureLoop_keys]
    decide
  · decide
  · decide

/-- C3 (amended): for any analysis result, flattening the JSON
`structure` object yields exactly the structure map's preorder path list
(the JSON renderer never truncates and never re-sorts: its sibling order
is the tree's insertion order, second conjunct), and with unbounded depth
the paths shown by the simple text tree are a permutation of the flattened
JSON paths — equal as sorted lists — while the JSON sibling ordering
comes from insertion order, not from `sortEntries`. -/
theorem c3_cross_format_paths (opts : Options) (fim : List (String × FileInfo))
    (m : SMap) (pp : String) :
    (flattenJSONPaths (JSONFormatter.generateJSONStructure opts fim m pp) pp =
      allPaths m pp) ∧
    ((JSONFormatter.generateJSONStructure opts fim m pp).map Prod.fst =
      m.entries.map Prod.fst) ∧
    (opts.maxDepth = Depth.infinity →
      (simpleTreePaths opts fim m pp).Perm
        (flattenJSONPaths (JSONFormatter.generateJSONStructure opts fim m pp) pp)) := by
  have h1 : flattenJSONPaths (JSONFormatter.generateJSONStructure opts fim m pp) pp =
      allPaths m pp := by
    simp only [JSONFormatter.generateJSONStructure, allPaths]
    exact flatten_jsonStructureLoop opts fim (sizeOf m.entries) m.entries pp le_rfl
  refine ⟨h1, ?_, ?_⟩
  · simp only [JSONFormatter.generateJSONStructure]
    exact jsonStructureLoop_keys opts fim m.entries pp
  · intro hinf
    rw [h1]
    exact simpleTreePaths_perm opts fim hinf m pp

/-- C1 counterexample: for the tree of `a`, `a/b`, `a/b/c` with
`maxDepth = 1`, the SIMPLE text renderer prints only the `a` line — no
`...` placeholder at all, although `a` sits at the depth limit and has
children — and the JSON renderer does not truncate: the flattened JSON
structure still contains the full path `a/b/c`, so `c` is printed. Both
refute the claim's "for every rendered format". -/
theorem c1_simple_and_json_truncation :
    (buildStructureMap ["a", "a/b", "a/b/c"] =
      SMap.mk [("a", SMap.mk [("b", SMap.mk [("c", SMap.mk [])])])]) ∧
    (TextFormatter.generateSimpleStructureText { maxDepth := Depth.num 1 }
        [("a", ⟨"a", 0, true, "2024-01-01T00:00:00.000Z", 493, false, none⟩)]
        (buildStructureMap ["a", "a/b", "a/b/c"]) "" "" = "└── a\n") ∧
    ¬ appearsIn "..." "└── a\n" ∧
    "a/b/c" ∈ flattenJSONPaths
      (JSONFormatter.generateJSONStructure { maxDepth := Depth.num 1 }
        [("a", ⟨"a", 0, true, "2024-01-01T00:00:00.000Z", 493, false, none⟩)]
        (buildStructureMap ["a", "a/b", "a/b/c"]) "") "" := by
  have hm : buildStructureMap ["a", "a/b", "a/b/c"] =
      SMap.mk [("a", SMap.mk [("b", SMap.mk [("c", SMap.mk [])])])] := rfl
  refine ⟨hm, ?_, ?_, ?_⟩
  · rw [hm]
    simp only [TextFormatter.generateSimpleStructureText,
      TextFormatter.simpleStructureLoop, sortEntries_single, SMap.entries]
    decide
  · intro h
    have := appearsIn_char_mem h '.' (by decide)
    revert this
    decide
  · rw [hm]
    simp only [JSONFormatter.generateJSONStructure]
    rw [flatten_jsonStructureLoop { maxDepth := Depth.num 1 } _
      (sizeOf (SMap.mk [("a", SMap.mk [("b", SMap.mk [("c", SMap.mk [])])])]).entries)
      _ "" le_rfl]
    simp only [allPathsLoop, allPaths, SMap.entries]
    decide

/-- C1 (amended): depth truncation is per-renderer, not uniform. In the
DETAILED text tree and the Markdown tree, an entry whose path's segment
count equals a finite `maxDepth` and which has children is printed, not
descended into, and followed by a single placeholder line (`...` resp.
`*...*`). The SIMPLE text tree stops descending at the same depth but
prints NO placeholder. The JSON renderer never truncates: its flattened
structure is always the full preorder path list, for every `maxDepth`.
With unbounded depth nothing is truncated: the simple tree's paths
permute the full path list. (The flag hypotheses keep per-entry extras
out of the printed line; the symlink hypothesis likewise.) -/
theorem c1_depth_truncation (opts : Options) (fim : List (String × FileInfo))
    (name : String) (sub : SMap) (pfx pp : String) (level : Nat) (fi : FileInfo)
    (hsz : opts.showSizes = false) (hts : opts.showTimestamps = false)
    (hpm : opts.showPermissions = false) (hgs : opts.showGitStatus = false)
    (hmd : opts.maxDepth = Depth.num ((splitPath (joinPath pp name)).length : Int))
    (hne : sub.entries ≠ [])
    (hsym : ∀ f, mapGet fim (joinPath pp name) = some f → f.isSymlink = false) :
    (TextFormatter.generateStructureText opts fim (SMap.mk [(name, sub)]) pfx pp =
      pfx ++ TREE_LAST_BRANCH ++ name ++ "\n" ++
        ((pfx ++ TREE_SPACE) ++ TREE_BRANCH ++ "..." ++ "\n")) ∧
    (mapGet fim (joinPath pp name) = some fi → fi.isDirectory = true →
      MarkdownFormatter.generateMarkdownStructure opts fim (SMap.mk [(name, sub)])
          level pp =
        repeatStr "  " level ++ "- " ++ ("**" ++ name ++ "/**") ++ "\n" ++
          (repeatStr "  " level ++ "  - *...*\n")) ∧
    (TextFormatter.generateSimpleStructureText opts fim (SMap.mk [(name, sub)]) pfx pp =
      pfx ++ TREE_LAST_BRANCH ++ name ++ "\n") ∧
    (∀ (m : SMap) (pp2 : String),
      flattenJSONPaths (JSONFormatter.generateJSONStructure opts fim m pp2) pp2 =
        allPaths m pp2) ∧
    (∀ opts2 : Options, opts2.maxDepth = Depth.infinity →
      ∀ (m : SMap) (pp2 : String),
      (simpleTreePaths opts2 fim m pp2).Perm (allPaths m pp2)) := by
  have hsize : (SMap.mk [(name, sub)]).entries.length = 1 := rfl
  have hsub : sub.size > 0 := by
    simp only [SMap.size]
    exact List.length_pos.2 hne
  have hlt : ltDepth (splitPath (joinPath pp name)).length opts.maxDepth = false := by
    rw [hmd]
    simp [ltDepth]
  have heq : eqDepth (splitPath (joinPath pp name)).length opts.maxDepth = true := by
    rw [hmd]
    simp [eqDepth]
  have hextras : textExtras opts (mapGet fim (joinPath pp name)) = [] :=
    textExtras_empty hsz hts hpm hgs _ hsym
  refine ⟨?_, ?_, ?_, ?_, ?_⟩
  · simp only [TextFormatter.generateStructureText, SMap.entries, sortEntries_single,
      TextFormatter.structureLoop, TextFormatter.getColorForFile, hextras, hlt, heq,
      List.length_nil, List.length_cons, hsub]
    simp [String.append_assoc]
  · intro hfi hdir
    have hmd2 : mdExtras opts (some fi) = [] := by
      refine mdExtras_empty hsz hts hgs (some fi) ?_
      intro f hf
      injection hf with h
      exact h ▸ hsym fi hfi
    simp only [MarkdownFormatter.generateMarkdownStructure, SMap.entries,
      sortEntries_single, MarkdownFormatter.markdownLoop, hfi, hdir,
      hmd2, hlt, heq, hsub]
    simp [String.append_assoc]
  · simp only [TextFormatter.generateSimpleStructureText, SMap.entries,
      sortEntries_single, TextFormatter.simpleStructureLoop, hlt, hsub]
    simp [String.append_assoc]
  · intro m pp2
    simp only [JSONFormatter.generateJSONStructure, allPaths]
    exact flatten_jsonStructureLoop opts fim (sizeOf m.entries) m.entries pp2 le_rfl
  · intro opts2 hinf m pp2
    exact simpleTreePaths_perm opts2 fim hinf m pp2

/-- C1 witness: the detailed text tree at `maxDepth = 1` on a node `a`
with a child prints the entry and the placeholder line. -/
theorem c1_depth_truncation_witness :
    TextFormatter.generateStructureText { maxDepth := Depth.num 1 } []
        (SMap.mk [("a", SMap.mk [("b", SMap.mk [])])]) "" "" =
      "" ++ TREE_LAST_BRANCH ++ "a" ++ "\n" ++
        (("" ++ TREE_SPACE) ++ TREE_BRANCH ++ "..." ++ "\n") :=
  (c1_depth_truncation { maxDepth := Depth.num 1 } [] "a"
    (SMap.mk [("b", SMap.mk [])]) "" "" 0 default rfl rfl rfl rfl (by decide)
    (by simp [SMap.entries]) (fun f hf => Option.noConfusion hf)).1

/-- C2 counterexample: in SIMPLE text mode (no display flag set) the
formatter prints only the root name and the bare tree — a pending warning
`w1` appears nowhere in the output, so this format swallows the
diagnostics. -/
theorem c2_simple_mode_omits_diagnostics :
    ({ warnings := ["w1"], directory := "repo" } : Options).warnings = ["w1"] ∧
    TextFormatter.format { warnings := ["w1"], directory := "repo" }
        "2024-01-01T00:00:00.000Z" ⟨[], {}, SMap.mk [], [], []⟩ = "repo\n" ∧
    ¬ appearsIn "w1" "repo\n" := by
  refine ⟨rfl, ?_, ?_⟩
  · simp only [TextFormatter.format]
    rw [if_pos (show simpleFormat
      ({ warnings := ["w1"], directory := "repo" } : Options) = true from rfl)]
    simp only [TextFormatter.generateSimpleStructureText,
      TextFormatter.simpleStructureLoop, sortEntries, stableSort, SMap.entries,
      List.foldl_nil, List.length_nil]
    decide
  · intro h
    have := appearsIn_char_mem h 'w' (by decide)
    revert this
    decide

/-- An error string occurs in the text issues block. -/
theorem appearsIn_issues_err {e : String} {errors warnings : List String}
    (he : e ∈ errors) :
    appearsIn e (TextFormatter.generateIssues errors warnings) := by
  have hlen : errors.length > 0 := List.length_pos.2 (List.ne_nil_of_mem he)
  simp only [TextFormatter.generateIssues, if_pos hlen]
  apply appearsIn_append_right
  apply appearsIn_append_left
  apply appearsIn_append_left
  exact appearsIn_concatStrs "  - " "\n" he

/-- A warning string occurs in the text issues block. -/
theorem appearsIn_issues_warn {w : String} {errors warnings : List String}
    (hw : w ∈ warnings) :
    appearsIn w (TextFormatter.generateIssues errors warnings) := by
  have hlen : warnings.length > 0 := List.length_pos.2 (List.ne_nil_of_mem hw)
  simp only [TextFormatter.generateIssues, if_pos hlen]
  apply appearsIn_append_left
  apply appearsIn_append_left
  exact appearsIn_concatStrs "  - " "\n" hw

/-- C2 (amended): accumulated diagnostics are surfaced by the detailed
text mode, the Markdown format (as rendered issue lines) and the JSON
format (as the `errors`/`warnings` fields of the stringified object) —
but NOT by the simple text mode, which omits the issues block entirely
(see the counterexample). -/
theorem c2_diagnostics_surfaced (opts : Options) (now : String)
    (res : AnalysisResult) :
    (simpleFormat opts = false →
      (∀ e ∈ opts.errors, appearsIn e (TextFormatter.format opts now res)) ∧
      (∀ w ∈ opts.warnings, appearsIn w (TextFormatter.format opts now res))) ∧
    (∀ e ∈ opts.errors, appearsIn e (MarkdownFormatter.format opts now res)) ∧
    (∀ w ∈ opts.warnings, appearsIn w (MarkdownFormatter.format opts now res)) ∧
    (opts.errors ≠ [] →
      (JSONFormatter.formatValue opts now res).errors = some opts.errors) ∧
    (opts.warnings ≠ [] →
      (JSONFormatter.formatValue opts now res).warnings = some opts.warnings) := by
  have hIssE : ∀ e ∈ opts.errors, hasIssues opts = true := by
    intro e he
    simp only [hasIssues, Bool.or_eq_true, decide_eq_true_eq]
    exact Or.inl (List.length_pos.2 (List.ne_nil_of_mem he))
  have hIssW : ∀ w ∈ opts.warnings, hasIssues opts = true := by
    intro w hw
    simp only [hasIssues, Bool.or_eq_true, decide_eq_true_eq]
    exact Or.inr (List.length_pos.2 (List.ne_nil_of_mem hw))
  refine ⟨?_, ?_, ?_, ?_, ?_⟩
  · intro hsf
    constructor
    · intro e he
      simp only [TextFormatter.format, hsf, Bool.false_eq_true, if_false]
      apply appearsIn_append_left
      rw [hIssE e he, if_pos rfl]
      exact appearsIn_issues_err he
    · intro w hw
      simp only [TextFormatter.format, hsf, Bool.false_eq_true, if_false]
      apply appearsIn_append_left
      rw [hIssW w hw, if_pos rfl]
      exact appearsIn_issues_warn hw
  · intro e he
    have hlen : opts.errors.length > 0 :=
      List.length_pos.2 (List.ne_nil_of_mem he)
    simp only [MarkdownFormatter.format]
    apply appearsIn_append_left
    rw [hIssE e he, if_pos rfl]
    apply appearsIn_append_right
    apply appearsIn_append_left
    rw [if_pos hlen]
    apply appearsIn_append_right
    apply appearsIn_append_left
    exact appearsIn_concatStrs "- " "\n" he
  · intro w hw
    have hlen : opts.warnings.length > 0 :=
      List.length_pos.2 (List.ne_nil_of_mem hw)
    simp only [MarkdownFormatter.format]
    apply appearsIn_append_left
    rw [hIssW w hw, if_pos rfl]
    apply appearsIn_append_left
    rw [if_pos hlen]
    apply appearsIn_append_right
    apply appearsIn_append_left
    exact appearsIn_concatStrs "- " "\n" hw
  · intro h
    simp only [JSONFormatter.formatValue]
    rw [if_pos (List.length_pos.2 h)]
  · intro h
    simp only [JSONFormatter.formatValue]
    rw [if_pos (List.length_pos.2 h)]
